import Mathlib

/-!
# Verification of the settei configuration library

A shallow embedding of `settei/base.py` and `settei/parse_env.py`
(spoqa/settei): the Python-value data model, the `EnvReader` mapping
protocol, the environment-variable-to-tree transformer, the
document/environment merge in `config_property.get_raw_value`, enum
coercion and typechecking, and `config_object_property` evaluation with
its per-instance cache.

Python dictionaries are modelled as insertion-ordered association lists,
Python `None` as `Value.noneV`, and raising code paths as `Except`
errors.  Code paths on which CPython raises exceptions that the library
never catches (`TypeError` on indexing a string, `AttributeError` on
`.items()` of a non-mapping, ...) are modelled by the `Err.pyCrash`
error.  Machine-level aspects (object identity) are modelled by an
explicit allocation counter threaded through constructor invocation.
-/

namespace Settei

/-- Python runtime values as far as the library manipulates them.
`dict` keeps insertion order like Python dicts.  `reader` is an
`EnvReader` instance (`parse_env.py`), which is a `Mapping` but not a
`dict`.  `enumMember` is a constructed `enum.Enum` member
(enum class name, member name, member value).  `obj` is an object
returned by invoking a resolved callable: allocation id, callable name,
positional arguments, keyword arguments. -/
inductive Value where
  | noneV : Value
  | bool (b : Bool) : Value
  | int (n : Int) : Value
  | str (s : String) : Value
  | list (xs : List Value) : Value
  | tuple (xs : List Value) : Value
  | dict (m : List (String × Value)) : Value
  | reader (conf : List (String × Value)) (froms : Option String) : Value
  | enumMember (enumName member memberValue : String) : Value
  | obj (oid : Nat) (cls : String) (args : List Value)
      (kwargs : List (String × Value)) : Value
  deriving Repr

/-- Errors raised by the library.  The first group are the
`ConfigError` subclasses from `settei/base.py`; `keyError` is Python's
plain `KeyError` (raised by `EnvReader.__getitem__`);
`importError` / `attributeError` are the unhandled exceptions that
escape `config_object_property.import_`; `pyCrash` stands for other
unhandled interpreter-level exceptions (`TypeError`, ...). -/
inductive Err where
  | configKeyError (key : String) : Err
  | invalidEnum (value : Value) (enumName : String)
      (candidates : List String) : Err
  | noMatchingEnum (value : Value) (tys : List String) : Err
  | ambiguousEnum (value : Value) (candidates : List Value) : Err
  | typeMismatch (key : String) (value : Value) : Err
  | notMapping (key : String) : Err
  | lacksClass (key : String) : Err
  | invalidImportPath (classKey : String) (path : String) : Err
  | notCallable (classKey : String) : Err
  | starNotList (args : Value) : Err
  | parseEnvTrouble : Err
  | importError (path : String) : Err
  | attributeError (name : String) : Err
  | keyError (key : String) : Err
  | pyCrash (msg : String) : Err
  deriving Repr

/-- Which `Err` values model Python `ConfigTypeError`s. -/
def Err.isConfigTypeError : Err → Bool
  | .invalidEnum _ _ _ => true
  | .noMatchingEnum _ _ => true
  | .ambiguousEnum _ _ => true
  | .typeMismatch _ _ => true
  | .notMapping _ => true
  | _ => false

/-- Which `Err` values model Python `ConfigValueError`s. -/
def Err.isConfigValueError : Err → Bool
  | .lacksClass _ => true
  | .invalidImportPath _ _ => true
  | .notCallable _ => true
  | .starNotList _ => true
  | .parseEnvTrouble => true
  | _ => false

/-- Python truthiness of the modelled values.  An `EnvReader` is a
`collections.abc.Mapping` whose `__len__` is the length of its backing
`conf` dict, so its truthiness is that of `conf`.  Constructed objects
and enum members are truthy. -/
def truthy : Value → Bool
  | .noneV => false
  | .bool b => b
  | .int n => n != 0
  | .str s => s != ""
  | .list xs => !xs.isEmpty
  | .tuple xs => !xs.isEmpty
  | .dict m => !m.isEmpty
  | .reader conf _ => !conf.isEmpty
  | .enumMember _ _ _ => true
  | .obj _ _ _ _ => true

/-- `d[k] = v` on a Python dict: replaces in place the first (unique)
binding of `k`, or appends a fresh binding at the end. -/
def dictSet (m : List (String × Value)) (k : String) (v : Value) :
    List (String × Value) :=
  match m with
  | [] => [(k, v)]
  | (k', v') :: rest =>
    if k' = k then (k', v) :: rest else (k', v') :: dictSet rest k v

/-- The delimiter used in environment variable names (`'__'`). -/
def DELIMITER : String := "__"

/-- The reserved marker for tuple / positional-argument levels. -/
def ASTERISK_CHAR : String := "ASTERISK"

/-- The reserved marker for sequence levels. -/
def LIST_CHAR : String := "SETTEIENVLIST"

/-- The process environment: an ordered name/value table
(iteration order of `os.environ` is its insertion order). -/
abbrev Environ := List (String × String)

/-! ### Kernel-computable string operations

The Lean standard library's `String.splitOn`, `toUpper`, `toLower`,
`replace`, `startsWith`, `toNat?` and `≤` are defined by well-founded
recursion over string iterators and do not reduce inside the kernel,
so the Python string operations the library relies on are implemented
here structurally over `String.data`.  They model CPython semantics on
the ASCII strings the library manipulates. -/

/-- Lexicographic code-point comparison of character lists
(Python `str` comparison). -/
def charListLe : List Char → List Char → Bool
  | [], _ => true
  | _ :: _, [] => false
  | a :: as, b :: bs => if a = b then charListLe as bs else decide (a < b)

/-- Python `a <= b` on strings. -/
def strLe (a b : String) : Bool := charListLe a.data b.data

/-- Worker for `pySplit`, with explicit fuel (one unit per examined
character suffices). -/
def splitOnCharsAux (sep : List Char) :
    Nat → List Char → List Char → List (List Char)
  | _, [], acc => [acc.reverse]
  | 0, s, acc => [acc.reverse ++ s]
  | n + 1, c :: rest, acc =>
    if sep.isPrefixOf (c :: rest) then
      acc.reverse :: splitOnCharsAux sep n ((c :: rest).drop sep.length) []
    else
      splitOnCharsAux sep n rest (c :: acc)

/-- Python `s.split(sep)` for a non-empty separator. -/
def pySplit (s sep : String) : List String :=
  (splitOnCharsAux sep.data s.data.length s.data []).map String.mk

/-- Python `s.upper()` (ASCII). -/
def pyUpper (s : String) : String := String.mk (s.data.map Char.toUpper)

/-- Python `s.lower()` (ASCII). -/
def pyLower (s : String) : String := String.mk (s.data.map Char.toLower)

/-- Joins with a separator (Python `sep.join`). -/
def joinWith (sep : String) : List String → String
  | [] => ""
  | [x] => x
  | x :: rest => x ++ sep ++ joinWith sep rest

/-- Python `s.replace(old, new)` for a non-empty `old`. -/
def pyReplace (s old new : String) : String := joinWith new (pySplit s old)

/-- Python `s.startswith(p)`. -/
def pyStartsWith (s p : String) : Bool := p.data.isPrefixOf s.data

/-- Python `int(s)` on the plain digit strings produced as sequence
indices (`None` models the `ValueError` on anything else). -/
def pyToNat? (s : String) : Option Nat :=
  match s.data with
  | [] => none
  | cs =>
    if cs.all Char.isDigit then
      some (cs.foldl (fun n c => n * 10 + (c.toNat - 48)) 0)
    else none

/-- Stable insertion used by `pySorted`: an element goes after every
element it is `le`-greater-or-equal to. -/
def insortBy {α : Type} (le : α → α → Bool) (x : α) : List α → List α
  | [] => [x]
  | y :: ys => if le y x then y :: insortBy le x ys else x :: y :: ys

/-- A stable ascending sort (Python `sorted`). -/
def pySorted {α : Type} (le : α → α → Bool) (xs : List α) : List α :=
  xs.foldl (fun acc x => insortBy le x acc) []

/-! ## `settei/parse_env.py`: `EnvReader` -/

/-- `EnvReader._value_from_env(keys, env_key, unpacked)`: wraps the raw
string value of `env_key` in one list/tuple layer per nested marker
segment, dropping the outermost marker layer when `unpacked` is true.
Indexing `keys[1]` out of range is an uncaught `IndexError`. -/
def readerValueFromEnv (environ : Environ) :
    List String → String → Bool → Except Err Value
  | [], envKey, _ =>
    match environ.lookup envKey with
    | some s => .ok (.str s)
    | none => .error (.keyError envKey)
  | keys@(_ :: rest), envKey, unpacked =>
    let asteriskPresent := keys.any (· = ASTERISK_CHAR)
    let listPresent := keys.any (· = LIST_CHAR)
    if !(asteriskPresent || listPresent) then
      match environ.lookup envKey with
      | some s => .ok (.str s)
      | none => .error (.keyError envKey)
    else do
      let r ← readerValueFromEnv environ rest envKey false
      match rest with
      | k1 :: _ =>
        if !unpacked && k1 = ASTERISK_CHAR then .ok (.tuple [r])
        else if !unpacked && k1 = LIST_CHAR then .ok (.list [r])
        else .ok r
      | [] => .error (.pyCrash "IndexError: keys[1]")

/-- `EnvReader._convert_sorted_results`: sorts the collected
`(index-segment-string, value)` pairs by the *string* index (Python
`sorted(results, key=lambda x: x[0])` compares the strings) and keeps
the values. -/
def convertSortedResults (results : List (String × Value)) : List Value :=
  (pySorted (fun a b => strLe a.1 b.1) results).map Prod.snd

/-- `EnvReader._transform_asterisk_and_list(upper_key, env_keys)`:
collects, for each matching environment variable name, the segment
right after the first occurrence of `upper_key` — `SETTEIENVLIST`
entries build a list, `ASTERISK` entries build a tuple — and sorts by
the raw index segment string. -/
def transformAsteriskAndList (environ : Environ) (upperKey : String)
    (envKeys : List String) : Except Err Value := do
  let pairs ← envKeys.foldlM
    (fun (acc : List (String × Value) × List (String × Value)) envKey => do
      let keys := pySplit envKey DELIMITER
      match keys.findIdx? (· = upperKey) with
      | none => .error (.pyCrash "ValueError: upper_key not in keys")
      | some keyIndex => do
        let result ← readerValueFromEnv environ (keys.drop keyIndex) envKey true
        match keys.drop (keyIndex + 1) with
        | k1 :: rest =>
          if k1 = LIST_CHAR then
            match rest with
            | k2 :: _ => .ok (acc.1 ++ [(k2, result)], acc.2)
            | [] => .error (.pyCrash "IndexError: keys[key_index + 2]")
          else if k1 = ASTERISK_CHAR then
            match rest with
            | k2 :: _ => .ok (acc.1, acc.2 ++ [(k2, result)])
            | [] => .error (.pyCrash "IndexError: keys[key_index + 2]")
          else .ok acc
        | [] => .error (.pyCrash "IndexError: keys[key_index + 1]"))
    ([], [])
  let listValues := convertSortedResults pairs.1
  if !listValues.isEmpty then
    .ok (.list listValues)
  else
    .ok (.tuple (convertSortedResults pairs.2))

/-- `EnvReader.__getitem__`: the backing `conf` dict first (a *falsy*
hit falls through to the final `if not result: raise KeyError` check),
then an exact environment variable (also subject to the falsy check),
then grouped `PREFIX__...` variables, which either materialize a
list/tuple or produce a nested, lazily-resolved `EnvReader` scope. -/
def readerGetitem (environ : Environ) (conf : List (String × Value))
    (froms : Option String) (key : String) : Except Err Value := do
  match conf.lookup key with
  | some r =>
    if truthy r then .ok r else .error (.keyError key)
  | none =>
    let upperKey := pyUpper key
    let osKey :=
      match froms with
      | some f => f ++ DELIMITER ++ upperKey
      | none => upperKey
    match environ.lookup osKey with
    | some s =>
      if truthy (.str s) then .ok (.str s) else .error (.keyError key)
    | none =>
      let lookupKey := osKey ++ DELIMITER
      let envKeys := (environ.map Prod.fst).filter
        (fun k => pyStartsWith k lookupKey)
      if !envKeys.isEmpty &&
          envKeys.any (fun k => (pySplit k DELIMITER).length ≥ 2) then do
        let results ← transformAsteriskAndList environ upperKey envKeys
        if !truthy results then
          .ok (.reader [] (some osKey))
        else
          .ok results
      else
        .error (.keyError key)

/-! ## `settei/base.py`: `config_property` raw-value resolution -/

/-- Is the value the Python `None` singleton? -/
def isNoneV : Value → Bool
  | .noneV => true
  | _ => false

/-- Is the value a Python `dict` (`isinstance(value, dict)`; an
`EnvReader` is a `Mapping` but *not* a `dict`)? -/
def isDict : Value → Bool
  | .dict _ => true
  | _ => false

/-- `z += [None] * abs(diff)`: extend a sequence with `None`
placeholders so that index `n - 1` exists. -/
def padTo (xs : List Value) (n : Nat) : List Value :=
  if xs.length < n then xs ++ List.replicate (n - xs.length) Value.noneV
  else xs

/-- The body of the `for i, key in enumerate(keys)` loop of
`config_property._transform_env_to_dict`, processing positions `i` and
onwards of one split environment variable name inside the subtree `z`
(the Python code mutates `z` in place and re-points `z` at the child;
here the updated subtree is rebuilt on the way out).  A
`SETTEIENVLIST` segment is skipped; a segment right after a marker is
an `int(...)` index into a null-padded sequence, written only when the
slot still holds the `None` placeholder; any other segment is a
lower-cased mapping key (or `'*'` for `ASTERISK`) installed with
`setdefault`.  `none` models the interpreter errors Python would raise
(`ValueError` from `int(key)`, `TypeError` from indexing). -/
def insStep (keys : List String) (envVal : String) :
    List String → Nat → Value → Option Value
  | [], _, z => some z
  | _ :: suffix, i, z =>
    match keys.get? i with
    | none => some z
    | some key =>
      if keys.get? i = some LIST_CHAR then insStep keys envVal suffix (i + 1) z
      else
        let input0 : Value :=
          if i = keys.length - 1 then .str envVal
          else if keys.get? i = some ASTERISK_CHAR ∨
              keys.get? (i + 1) = some LIST_CHAR then .list []
          else .dict []
        if 0 < i ∧ (keys.get? (i - 1) = some ASTERISK_CHAR ∨
            keys.get? (i - 1) = some LIST_CHAR) then
          match z, pyToNat? key with
          | .list xs, some k =>
            let xs' := padTo xs (k + 1)
            let cur := xs'.getD k .noneV
            let child := if isNoneV cur then input0 else cur
            match insStep keys envVal suffix (i + 1) child with
            | some child' => some (.list (xs'.set k child'))
            | none => none
          | _, _ => none
        else
          let k :=
            if keys.get? i = some ASTERISK_CHAR then "*" else pyLower key
          match z with
          | .dict m =>
            let cur := (m.lookup k).getD input0
            let m' := if (m.lookup k).isSome then m else m ++ [(k, input0)]
            match insStep keys envVal suffix (i + 1) cur with
            | some child' => some (.dict (dictSet m' k child'))
            | none => none
          | _ => none

/-- `config_property._transform_env_to_dict`: fold every matching
environment variable (in iteration order) into a configuration tree. -/
def transformEnvToDict (env : Environ) : Option Value :=
  env.foldlM
    (fun rs kv =>
      let keys := pySplit kv.1 DELIMITER
      insStep keys kv.2 keys 0 rs)
    (.dict [])

/-- `config_property._make_env_name`: dots to `'__'`, upper-cased. -/
def makeEnvName (k : String) : String := pyUpper (pyReplace k "." DELIMITER)

/-- Indexing `value[key]` during a property read: a plain dict raises
`KeyError` for an absent key; an `EnvReader` runs its `__getitem__`;
indexing anything else with a string key is an uncaught `TypeError`. -/
def getitem (environ : Environ) : Value → String → Except Err Value
  | .dict m, key =>
    match m.lookup key with
    | some v => .ok v
    | none => .error (.keyError key)
  | .reader conf froms, key => readerGetitem environ conf froms key
  | _, _ => .error (.pyCrash "TypeError: not subscriptable by str")

/-- The descent `for k in self.key.split('.'): r = r[k]` of
`config_property._value_from_env`, over the plain dicts produced by
the transformer; a `KeyError` here is *not* caught. -/
def descend : Value → List String → Except Err Value
  | v, [] => .ok v
  | v, k :: rest =>
    match v with
    | .dict m =>
      match m.lookup k with
      | some v' => descend v' rest
      | none => .error (.keyError k)
    | _ => .error (.pyCrash "TypeError: not subscriptable by str")

/-- The loop of `config_property._value_from_dict`: index step by step,
treating a `KeyError` at any depth as "not found". -/
def valueFromDictGo (environ : Environ) :
    List String → Value → Except Err (Bool × Value)
  | [], v => .ok (true, v)
  | k :: rest, v =>
    match getitem environ v k with
    | .ok v' => valueFromDictGo environ rest v'
    | .error (.keyError _) => .ok (false, .noneV)
    | .error e => .error e

/-- `config_property._value_from_dict(obj)` where `obj` is the owning
`Configuration` instance (an `EnvReader` over `conf`). -/
def valueFromDict (environ : Environ) (key : String)
    (conf : List (String × Value)) : Except Err (Bool × Value) :=
  valueFromDictGo environ (pySplit key ".") (.reader conf none)

/-- An `enum.Enum` subclass: a class name and the ordered
`__members__` table (member name, member string value). -/
structure EnumTy where
  name : String
  members : List (String × String)
  deriving Repr

/-- A Python type as far as `isinstance` checks and enum coercion are
concerned.  `objTy accepts` models a user class: an `obj` value is an
instance iff `accepts` holds of the class name its constructor was
resolved to (this stands for the Python class hierarchy).
`objectTy` is `object`, of which everything is an instance. -/
inductive Ty where
  | enumTy (e : EnumTy) : Ty
  | strTy : Ty
  | intTy : Ty
  | boolTy : Ty
  | dictTy : Ty
  | listTy : Ty
  | objTy (accepts : String → Bool) : Ty
  | objectTy : Ty

/-- The declared `cls` of a property: a plain type or a
`typing.Union[...]` of several. -/
inductive DeclCls where
  | single (t : Ty) : DeclCls
  | union (ts : List Ty) : DeclCls

/-- `get_union_types`: the parameters of a `Union`, else `None`. -/
def getUnionTypes : DeclCls → Option (List Ty)
  | .single _ => none
  | .union ts => some ts

/-- `isinstance(v, t)`.  Python `bool` is a subclass of `int`. -/
def isinst (v : Value) : Ty → Bool
  | .enumTy e =>
    match v with
    | .enumMember n _ _ => n = e.name
    | _ => false
  | .strTy =>
    match v with
    | .str _ => true
    | _ => false
  | .intTy =>
    match v with
    | .int _ => true
    | .bool _ => true
    | _ => false
  | .boolTy =>
    match v with
    | .bool _ => true
    | _ => false
  | .dictTy =>
    match v with
    | .dict _ => true
    | _ => false
  | .listTy =>
    match v with
    | .list _ => true
    | _ => false
  | .objTy accepts =>
    match v with
    | .obj _ c _ _ => accepts c
    | _ => false
  | .objectTy => true

/-- The declaration-time state of a `config_property` descriptor.
`defaultFunc` models the `default_func`/`default` keyword arguments
(a literal `default=d` is stored by `__init__` as `lambda _: d`, and
`default_set` is true exactly when one of the two was given);
`parseEnv` models the `parse_env` callback, whose exceptions are
modelled as `Except.error ()`. -/
structure ConfigProp where
  key : String
  cls : DeclCls := .single .objectTy
  defaultFunc : Option (Value → Value) := none
  defaultWarning : Bool := false
  lookupEnv : Bool := true
  parseEnv : Option (Value → Except Unit Value) := none

/-- `config_property._value_from_env(obj)`: filter the process
environment by the derived name, transform into a tree, descend along
the dotted key, then run the optional parser (whose failure is wrapped
in a `ConfigValueError`).  Returns `Value.noneV` when no environment
variable matched (Python returns `None`). -/
def valueFromEnvP (p : ConfigProp) (environ : Environ) : Except Err Value := do
  let envName := makeEnvName p.key
  let groupKey := envName ++ DELIMITER
  let environ' := environ.filter
    (fun kv => pyStartsWith kv.1 groupKey || kv.1 = envName)
  if environ'.isEmpty then .ok .noneV
  else do
    let e ← match transformEnvToDict environ' with
      | some e => pure e
      | none => Except.error (.pyCrash "error in _transform_env_to_dict")
    let r ← descend e (pySplit p.key ".")
    match p.parseEnv with
    | some f =>
      match f r with
      | .ok r' => .ok r'
      | .error _ => .error .parseEnvTrouble
    | none => .ok r

mutual

/-- The nested helper `dict_merge(dct, merge_dct)` of
`config_property.get_raw_value`.  It mutates `dct` in place, writing
every entry of `merge_dct` over `dct` except where the `dct` side
already holds a dict, in which case it recurses — and, because the
recursive call's result is used only through the in-place mutation, a
*falsy* (empty) `dct`-side dict is rebound to a fresh dict by
`dct = dct or {}` and the merged content is silently dropped.
`none` models the `AttributeError`/`TypeError` Python raises when
`merge_dct` is not a mapping or when a truthy non-mapping `dct` is
written to. -/
def dictMerge (dct : Value) : Value → Option Value
  | .dict m =>
    match (if truthy dct then dct else .dict []) with
    | .dict acc => (mergeInto acc m).map Value.dict
    | base => if m.isEmpty then some base else none
  | _ => none

/-- The `for k, v in merge_dct.items()` loop of `dict_merge`, with the
in-place mutations of `dct` threaded through `acc`. -/
def mergeInto (acc : List (String × Value)) :
    List (String × Value) → Option (List (String × Value))
  | [] => some acc
  | (k, v) :: rest =>
    match acc.lookup k with
    | some c =>
      match c with
      | .dict _ =>
        match dictMerge c v with
        | some r =>
          mergeInto (dictSet acc k (if truthy c then r else c)) rest
        | none => none
      | _ => mergeInto (dictSet acc k v) rest
    | none => mergeInto (dictSet acc k v) rest

end

/-- An advisory `ConfigWarning` emitted when a declared default is
used: it names the key and the chosen default value. -/
structure Warning where
  key : String
  used : Value
  deriving Repr

/-- `config_property.get_raw_value(obj)`: document lookup first; then,
when environment lookup is enabled and produced a value, either
deep-merge it under a dict-valued document hit or use it for a miss;
then the declared default (with its optional warning); finally
`ConfigKeyError`.  Returns the `(default?, value)` pair together with
the warnings emitted. -/
def getRawValue (p : ConfigProp) (environ : Environ)
    (conf : List (String × Value)) :
    Except Err ((Bool × Value) × List Warning) := do
  let (found, value) ← valueFromDict environ p.key conf
  let raw0 : Option (Bool × Value) :=
    if found then some (false, value) else none
  let raw1 ←
    if p.lookupEnv then do
      let envVal ← valueFromEnvP p environ
      if !isNoneV envVal then
        match raw0 with
        | some _ =>
          if isDict value then
            match dictMerge envVal value with
            | some merged => pure (some (false, merged))
            | none => Except.error (.pyCrash "error in dict_merge")
          else pure raw0
        | none => pure (some (false, envVal))
      else pure raw0
    else pure raw0
  match raw1 with
  | some rv => .ok (rv, [])
  | none =>
    match p.defaultFunc with
    | some f =>
      let d := f (.reader conf none)
      .ok ((true, d), if p.defaultWarning then [⟨p.key, d⟩] else [])
    | none => .error (.configKeyError p.key)

/-! ## `settei/base.py`: type coercion and typechecking -/

/-- Calling an enum class on a raw value (`cls(value)`): by-value
member lookup; no match is a `ValueError`. -/
def enumCall (e : EnumTy) (v : Value) : Option Value :=
  match v with
  | .str s =>
    (e.members.find? (fun m => m.2 = s)).map
      (fun m => .enumMember e.name m.1 m.2)
  | _ => none

/-- Is the type an `enum.Enum` subclass? -/
def isEnumTy : Ty → Bool
  | .enumTy _ => true
  | _ => false

/-- `config_property.convert_native_type`.  For a plain enum class,
construct the member or fail listing the member names.  For a union,
try each enum type in declaration order.  Note that in the source
`non_enums` is a lazy `filter` *object*, which is always truthy, so
`if non_enums:` always takes the pass-through branch when no enum
matched: the `'No matching value ...'` raise is unreachable.  A single
non-enum class is not `isinstance(..., Iterable)`, so it also passes
the value through. -/
def convertNativeType (cls : DeclCls) (value : Value) : Except Err Value :=
  match cls with
  | .single t =>
    match t with
    | .enumTy e =>
      match enumCall e value with
      | some m => .ok m
      | none => .error (.invalidEnum value e.name (e.members.map Prod.fst))
    | _ => .ok value
  | .union ts =>
    let candidates := ts.filterMap
      (fun t =>
        match t with
        | .enumTy e => enumCall e value
        | _ => none)
    match candidates with
    | [] => .ok value
    | [c] => .ok c
    | cs => .error (.ambiguousEnum value cs)

/-- `config_property.typecheck`: `isinstance` against the declared
type, or against the tuple of a union's parameters. -/
def typecheckValue (key : String) (cls : DeclCls) (value : Value) :
    Except Err Unit :=
  let tys :=
    match getUnionTypes cls with
    | none =>
      match cls with
      | .single t => [t]
      | .union ts => ts
    | some ts => ts
  if tys.any (isinst value) then .ok () else .error (.typeMismatch key value)

/-- `config_property.__get__` on an instance: resolve the raw value,
and unless it came from a declared default, coerce and typecheck it.
Defaults bypass both steps. -/
def propGet (p : ConfigProp) (environ : Environ)
    (conf : List (String × Value)) : Except Err (Value × List Warning) := do
  let ((isDefault, value), warns) ← getRawValue p environ conf
  if !isDefault then do
    let v ← convertNativeType p.cls value
    match typecheckValue p.key p.cls v with
    | .ok _ => .ok (v, warns)
    | .error e => .error e
  else .ok (value, warns)

/-! ## `settei/base.py`: `config_object_property` -/

/-- A symbol of a Python module, as the object-construction machinery
sees it: a display name and whether it is callable.  Invoking a
callable symbol is modelled as allocating a fresh `Value.obj` tagged
with the symbol name. -/
structure PySymbol where
  name : String
  callable : Bool := true
  deriving Repr

/-- The symbol-resolution collaborator: full dotted module path to the
symbols reachable from it by the `getattr` chain of `import_`.  A path
absent from the table is an unresolvable module (`__import__` raises
`ImportError`). -/
abbrev ImportEnv := List (String × List (String × PySymbol))

/-- Is the character a `\w` (word) character of the `CLASS_RE` regex
(ASCII range, as exercised by the library)? -/
def isWordChar (c : Char) : Bool := c.isAlphanum || c = '_'

/-- `[^\d\W]`: a word character that is not a digit. -/
def isWordStartChar (c : Char) : Bool := c.isAlpha || c = '_'

/-- One `[^\d\W]\w*` identifier. -/
def isIdent (s : String) : Bool :=
  match s.toList with
  | [] => false
  | c :: rest => isWordStartChar c && rest.all isWordChar

/-- The optional `path` group of `CLASS_RE`:
`(?:(?:^|\.)[^\d\W]\w*)+`, i.e. dot-separated identifiers. -/
def isDottedPath (s : String) : Bool :=
  (pySplit s ".").all isIdent

/-- `CLASS_RE.match(import_path)`: splits `[dotted.path]:name`,
returning the `path` group (`none` when empty, as the group is
optional) and the `name` group. -/
def classReMatch (s : String) : Option (Option String × String) :=
  match pySplit s ":" with
  | [p, n] =>
    if isIdent n then
      if p = "" then some (none, n)
      else if isDottedPath p then some (some p, n)
      else none
    else none
  | _ => none

/-- `config_object_property.import_`: grammar check
(`ConfigValueError` on mismatch), then module resolution — an
unresolvable module path raises `ImportError` from `__import__`, which
`import_` does **not** catch or wrap — then the `getattr` chain
(an `AttributeError` likewise propagates), then the callability check
(`ConfigValueError`).  An empty `path` group makes `__import__(None)`
raise `TypeError`. -/
def importCallable (ienv : ImportEnv) (propKey : String)
    (importPath : String) : Except Err PySymbol :=
  let classKey := propKey ++ ".class"
  match classReMatch importPath with
  | none => .error (.invalidImportPath classKey importPath)
  | some (pathOpt, name) =>
    match pathOpt with
    | none => .error (.pyCrash "TypeError: import of None")
    | some path =>
      match ienv.lookup path with
      | none => .error (.importError path)
      | some syms =>
        match syms.lookup name with
        | none => .error (.attributeError name)
        | some f =>
          if f.callable then .ok f else .error (.notCallable classKey)

/-- Is the value a `collections.abc.Mapping` (`dict` or `EnvReader`)? -/
def isMapping : Value → Bool
  | .dict _ => true
  | .reader _ _ => true
  | _ => false

/-- `expression[k]` through the `Mapping` interface, with a `KeyError`
meaning "absent" (as in `expression.get` and `in`); other errors of
`EnvReader.__getitem__` propagate. -/
def mappingGet (environ : Environ) (e : Value) (k : String) :
    Except Err (Option Value) :=
  match e with
  | .dict m => .ok (m.lookup k)
  | .reader conf froms =>
    match readerGetitem environ conf froms k with
    | .ok v => .ok (some v)
    | .error (.keyError _) => .ok none
    | .error err => .error err
  | _ => .error (.pyCrash "TypeError: not a mapping")

/-- `expression.items()`: a dict yields its entries; an `EnvReader`
iterates the keys of its backing `conf` and resolves each through
`__getitem__` (so a falsy `conf` value raises `KeyError` here). -/
def mappingItems (environ : Environ) (e : Value) :
    Except Err (List (String × Value)) :=
  match e with
  | .dict m => .ok m
  | .reader conf froms =>
    conf.mapM (fun kv => do
      let v ← readerGetitem environ conf froms kv.1
      pure (kv.1, v))
  | _ => .error (.pyCrash "TypeError: not a mapping")

/-- Monadic map of an evaluation callback over positional arguments
(the forcing of `map(self.evaluate, args)` by the `f(*args, ...)`
call), threading the allocation counter. -/
def evalArgsWith (ev : Value → Nat → Except Err (Value × Nat)) :
    List Value → Nat → Except Err (List Value × Nat)
  | [], c => .ok ([], c)
  | x :: xs, c => do
    let (x', c') ← ev x c
    let (xs', c'') ← evalArgsWith ev xs c'
    .ok (x' :: xs', c'')

/-- `{k: self.evaluate(v) for k, v in kw.items()}` with an evaluation
callback, threading the allocation counter. -/
def evalKwWith (ev : Value → Nat → Except Err (Value × Nat)) :
    List (String × Value) → Nat → Except Err (List (String × Value) × Nat)
  | [], c => .ok ([], c)
  | (k, v) :: rest, c => do
    let (v', c') ← ev v c
    let (rest', c'') ← evalKwWith ev rest c'
    .ok ((k, v') :: rest', c'')

/-- `extract` of the `'*'` entry: `isinstance(args, str) or not
isinstance(args, Sequence)` rejects strings and non-sequences with a
`ConfigValueError`; lists and tuples pass. -/
def extractStarArgs : Value → Except Err (List Value)
  | .list xs => .ok xs
  | .tuple xs => .ok xs
  | v => .error (.starNotList v)

/-- `config_object_property.evaluate(expression)`: a non-mapping or a
mapping without a `'class'` entry passes through unchanged; otherwise
resolve the class to a callable, take `'*'` as positional arguments
(default `()`), the remaining entries as keyword arguments, optionally
evaluating each argument recursively, and invoke the callable —
modelled as allocating `Value.obj` with the next id from the threaded
counter.  `fuel` bounds the recursion depth of the model (Python
recurses on the actual object graph); each theorem below holds for
every sufficiently large fuel. -/
def evaluateF (recurse : Bool) (ienv : ImportEnv) (environ : Environ)
    (propKey : String) : Nat → Value → Nat → Except Err (Value × Nat)
  | 0, _, _ => .error (.pyCrash "modelling fuel exhausted")
  | fuel + 1, expression, ctr =>
    if !isMapping expression then .ok (expression, ctr)
    else
      match mappingGet environ expression "class" with
      | .error err => .error err
      | .ok none => .ok (expression, ctr)
      | .ok (some (.str s)) =>
        match importCallable ienv propKey s with
        | .error err => .error err
        | .ok f =>
          match mappingGet environ expression "*" with
          | .error err => .error err
          | .ok og =>
            match extractStarArgs (og.getD (.tuple [])) with
            | .error err => .error err
            | .ok argList =>
              match mappingItems environ expression with
              | .error err => .error err
              | .ok items =>
                let kw := items.filter
                  (fun kv => kv.1 ≠ "class" ∧ kv.1 ≠ "*")
                if recurse then
                  match evalArgsWith
                      (evaluateF recurse ienv environ propKey fuel)
                      argList ctr with
                  | .error err => .error err
                  | .ok (args', ctr1) =>
                    match evalKwWith
                        (evaluateF recurse ienv environ propKey fuel)
                        kw ctr1 with
                    | .error err => .error err
                    | .ok (kw', ctr2) =>
                      .ok (.obj ctr2 f.name args' kw', ctr2 + 1)
                else .ok (.obj ctr f.name argList kw, ctr + 1)
      | .ok (some _) => .error (.pyCrash "TypeError: re.match on non-str")

/-- The declaration-time state of a `config_object_property`. -/
structure ConfigObjectProp where
  prop : ConfigProp
  recurse : Bool := false
  cached : Bool := false

/-- The per-instance attribute name `'  cache_{!s}'.format(self.key)`
under which a cached object is stored on the owning instance. -/
def cacheAttr (key : String) : String := "  cache_" ++ key

/-- A `Configuration` instance: the backing document `conf` plus the
instance attribute dictionary used by the `cached` option (the private
instance-scoped slots, distinct from `conf`). -/
structure ConfigInstance where
  conf : List (String × Value)
  cache : List (String × Value) := []
  deriving Repr

/-- `config_object_property.__get__` on an instance: per-instance
cache probe, raw-value resolution, the default short-circuit, the
mapping and `'class'`-presence requirements, evaluation, the
typecheck, and the cache write.  The allocation counter `ctr` is
threaded through so that distinct constructor invocations yield
distinguishable objects. -/
def objPropGet (p : ConfigObjectProp) (ienv : ImportEnv) (environ : Environ)
    (fuel : Nat) (inst : ConfigInstance) (ctr : Nat) :
    Except Err (Value × ConfigInstance × Nat × List Warning) := do
  let cacheHit : Option Value :=
    if p.cached then inst.cache.lookup (cacheAttr p.prop.key) else none
  match cacheHit with
  | some v => .ok (v, inst, ctr, [])
  | none => do
    let ((isDefault, expression), warns) ← getRawValue p.prop environ inst.conf
    if isDefault then .ok (expression, inst, ctr, warns)
    else if !isMapping expression then
      Except.error (.notMapping p.prop.key)
    else do
      let hasClass ← (mappingGet environ expression "class").map Option.isSome
      if !hasClass then Except.error (.lacksClass p.prop.key)
      else do
        let (value, ctr') ← evaluateF p.recurse ienv environ p.prop.key fuel
          expression ctr
        match typecheckValue p.prop.key p.prop.cls value with
        | .ok _ =>
          let inst' :=
            if p.cached then
              { inst with
                cache := dictSet inst.cache (cacheAttr p.prop.key) value }
            else inst
          .ok (value, inst', ctr', warns)
        | .error e => .error e

/-! ## Generic lemmas -/

theorem bindOkEq {α β : Type} (a : α) (f : α → Except Err β) :
    (Except.ok a >>= f) = f a := rfl

theorem bindErrorEq {α β : Type} (e : Err) (f : α → Except Err β) :
    ((Except.error e : Except Err α) >>= f) = Except.error e := rfl

theorem mapOkEq {α β : Type} (g : α → β) (a : α) :
    Except.map g (Except.ok a : Except Err α) = Except.ok (g a) := rfl

theorem mapErrorEq {α β : Type} (g : α → β) (e : Err) :
    Except.map g (Except.error e : Except Err α) = Except.error e := rfl

theorem dictSet_lookup_self (m : List (String × Value)) (k : String)
    (v : Value) : (dictSet m k v).lookup k = some v := by
  induction m with
  | nil => simp [dictSet, List.lookup]
  | cons kv rest ih =>
    obtain ⟨k0, v0⟩ := kv
    by_cases h : k0 = k
    · subst h
      simp [dictSet, List.lookup]
    · have hb : (k == k0) = false := beq_false_of_ne (fun e => h e.symm)
      simp [dictSet, h, List.lookup, hb, ih]

theorem dictSet_lookup_other (m : List (String × Value)) (k k' : String)
    (v : Value) (h : k' ≠ k) :
    (dictSet m k v).lookup k' = m.lookup k' := by
  induction m with
  | nil =>
    have hb : (k' == k) = false := beq_false_of_ne h
    simp [dictSet, List.lookup, hb]
  | cons kv rest ih =>
    obtain ⟨k0, v0⟩ := kv
    by_cases h0 : k0 = k
    · subst h0
      have hb : (k' == k0) = false := beq_false_of_ne h
      simp [dictSet, List.lookup, hb]
    · simp only [dictSet, if_neg h0, List.lookup]
      cases hkk : (k' == k0) with
      | true => rfl
      | false => exact ih

/-! ## Claim theorems -/

/-- **C10**: indexing a `Configuration`/`EnvReader` whose backing
document maps the key to a falsy value raises `KeyError`, whatever the
process environment holds: the environment fallback is only reached
when the key is missing from the document, while a falsy hit falls
into the final `if not result: raise KeyError(key)` check. -/
theorem envreader_falsy_document_value_raises_keyerror
    (environ : Environ) (conf : List (String × Value))
    (froms : Option String) (key : String) (v : Value)
    (hfound : conf.lookup key = some v) (hfalsy : truthy v = false) :
    readerGetitem environ conf froms key = .error (.keyError key) := by
  simp [readerGetitem, hfound, hfalsy]

theorem envreader_falsy_document_value_raises_keyerror_witness :
    (([("a", Value.str "")] : List (String × Value)).lookup "a" =
      some (.str "")) ∧
    truthy (.str "") = false ∧
    readerGetitem [("A", "3")] [("a", Value.str "")] none "a" =
      .error (.keyError "a") := by
  refine ⟨rfl, rfl, ?_⟩
  exact envreader_falsy_document_value_raises_keyerror
    [("A", "3")] [("a", Value.str "")] none "a" (.str "") rfl rfl

/-- **C2**: when the document lookup of a property read succeeds and
the found value is not a `dict`, the resolved raw value is the
document value, whatever value the (still-consulted) environment
lookup produced: the environment overlay only applies when the
document value is a `dict`, and the environment-only branch only when
the document lookup failed. -/
theorem document_scalar_wins_over_environment
    (p : ConfigProp) (environ : Environ) (conf : List (String × Value))
    (v : Value)
    (hdoc : valueFromDict environ p.key conf = .ok (true, v))
    (hnd : isDict v = false)
    (henv : p.lookupEnv = true → ∃ ev, valueFromEnvP p environ = .ok ev) :
    getRawValue p environ conf = .ok ((false, v), []) := by
  cases hl : p.lookupEnv with
  | false => simp [getRawValue, hdoc, bindOkEq, hl]
  | true =>
    obtain ⟨ev, hev⟩ := henv hl
    cases hnv : isNoneV ev with
    | true => simp [getRawValue, hdoc, bindOkEq, hl, hev, hnv]
    | false => simp [getRawValue, hdoc, bindOkEq, hl, hev, hnv, hnd]

theorem document_scalar_wins_over_environment_witness :
    valueFromDict [("FOO__QUUZ", "quuz")] "foo.quuz"
      [("foo", .dict [("quuz", .str "gl")])] = .ok (true, .str "gl") ∧
    getRawValue { key := "foo.quuz" } [("FOO__QUUZ", "quuz")]
      [("foo", .dict [("quuz", .str "gl")])] = .ok ((false, .str "gl"), []) ∧
    propGet { key := "foo.quuz", cls := .single .strTy }
      [("FOO__QUUZ", "quuz")] [("foo", .dict [("quuz", .str "gl")])] =
      .ok (.str "gl", []) := by
  refine ⟨rfl, ?_, rfl⟩
  exact document_scalar_wins_over_environment { key := "foo.quuz" }
    [("FOO__QUUZ", "quuz")] [("foo", .dict [("quuz", .str "gl")])]
    (.str "gl") rfl rfl (fun _ => ⟨.str "quuz", rfl⟩)

/-- **C8**: a property declared with a literal default and
`default_warning=True`, read when the key is found neither in the
document nor in the environment, emits exactly one `ConfigWarning`
naming the key and the chosen default, and returns the default
unchanged — whatever the declared `cls` is, since the default branch
of `__get__` skips both `convert_native_type` and `typecheck`. -/
theorem default_with_warning_read
    (p : ConfigProp) (environ : Environ) (conf : List (String × Value))
    (d : Value)
    (hdf : p.defaultFunc = some (fun _ => d))
    (hw : p.defaultWarning = true)
    (hdoc : valueFromDict environ p.key conf = .ok (false, .noneV))
    (henv : p.lookupEnv = true → valueFromEnvP p environ = .ok .noneV) :
    propGet p environ conf = .ok (d, [⟨p.key, d⟩]) := by
  have hraw : getRawValue p environ conf = .ok ((true, d), [⟨p.key, d⟩]) := by
    cases hl : p.lookupEnv with
    | false => simp [getRawValue, hdoc, bindOkEq, hl, hdf, hw]
    | true => simp [getRawValue, hdoc, bindOkEq, hl, henv hl, hdf, hw, isNoneV]
  simp [propGet, hraw, bindOkEq]

theorem default_with_warning_read_witness :
    propGet
      { key := "section.key"
        cls := .single .strTy
        defaultFunc := some (fun _ => Value.noneV)
        defaultWarning := true } [] [] =
      .ok (.noneV, [⟨"section.key", .noneV⟩]) := by
  exact default_with_warning_read
    { key := "section.key"
      cls := .single .strTy
      defaultFunc := some (fun _ => Value.noneV)
      defaultWarning := true }
    [] [] .noneV rfl rfl rfl (fun _ => rfl)

/-- The enum classes `Enum1` / `Enum2` of `tests/base_test.py`, which
both define an `apple` member. -/
def fruitEnum1 : EnumTy :=
  { name := "Enum1"
    members := [("apple", "apple"), ("banana", "banana"),
      ("cherry", "cherry")] }

/-- See `fruitEnum1`. -/
def fruitEnum2 : EnumTy :=
  { name := "Enum2"
    members := [("apple", "apple"), ("bear", "bear"), ("candy", "candy")] }

/-- **C7**: when the declared type is a union and the raw resolved
value constructs a member of two or more of its enum types, the read
fails with the ambiguous-enum `ConfigTypeError` carrying exactly the
list of matching candidate members. -/
theorem union_ambiguous_enum_error
    (p : ConfigProp) (environ : Environ) (conf : List (String × Value))
    (v : Value) (ts : List Ty) (cs : List Value) (ws : List Warning)
    (hcls : p.cls = .union ts)
    (hraw : getRawValue p environ conf = .ok ((false, v), ws))
    (hcs : ts.filterMap
        (fun t =>
          match t with
          | .enumTy e => enumCall e v
          | _ => none) = cs)
    (h2 : 2 ≤ cs.length) :
    propGet p environ conf = .error (.ambiguousEnum v cs) := by
  match cs, h2 with
  | c1 :: c2 :: rest, _ =>
    simp [propGet, hraw, bindOkEq, bindErrorEq, convertNativeType, hcls, hcs]

theorem union_ambiguous_enum_error_witness :
    propGet
      { key := "enum_union"
        cls := .union [.enumTy fruitEnum1, .enumTy fruitEnum2, .strTy]
        lookupEnv := false }
      [] [("enum_union", .str "apple")] =
      .error (.ambiguousEnum (.str "apple")
        [.enumMember "Enum1" "apple" "apple",
         .enumMember "Enum2" "apple" "apple"]) := by
  exact union_ambiguous_enum_error
    { key := "enum_union"
      cls := .union [.enumTy fruitEnum1, .enumTy fruitEnum2, .strTy]
      lookupEnv := false }
    [] [("enum_union", .str "apple")] (.str "apple")
    [.enumTy fruitEnum1, .enumTy fruitEnum2, .strTy]
    [.enumMember "Enum1" "apple" "apple", .enumMember "Enum2" "apple" "apple"]
    [] rfl rfl rfl (by simp)

/-- **C5** (code bug): for a union consisting only of enum types and a
value that constructs a member of none of them, `convert_native_type`
does *not* raise the candidate-listing type error: since `non_enums`
is a lazy `filter` object and therefore always truthy, the
pass-through branch is taken and the `'No matching value ...'` raise
is dead code.  The read then fails only in `typecheck`, with the
generic mismatch error, which lists no candidate names. -/
theorem enum_only_union_no_match_passes_through :
    convertNativeType (.union [.enumTy fruitEnum1, .enumTy fruitEnum2])
      (.str "grape") = .ok (.str "grape") ∧
    propGet
      { key := "enum_union"
        cls := .union [.enumTy fruitEnum1, .enumTy fruitEnum2]
        lookupEnv := false }
      [] [("enum_union", .str "grape")] =
      .error (.typeMismatch "enum_union" (.str "grape")) ∧
    ∀ cands : List String,
      Err.typeMismatch "enum_union" (.str "grape") ≠
        .noMatchingEnum (.str "grape") cands :=
  ⟨rfl, rfl, fun _ h => Err.noConfusion h⟩

/-- **C6** counterexample: a `'class'` entry that matches the
import-path grammar but whose module path resolves to nothing makes
the read fail with the *uncaught* `ImportError` of `__import__` — not
with a `ConfigValueError` wrapping it: `import_` has no handler around
the `__import__` call. -/
theorem unresolvable_import_counterexample :
    classReMatch "nosuchmod:SimpleCache" =
      some (some "nosuchmod", "SimpleCache") ∧
    importCallable [] "cache" "nosuchmod:SimpleCache" =
      .error (.importError "nosuchmod") ∧
    Err.isConfigValueError (.importError "nosuchmod") = false ∧
    evaluateF false [] [] "cache" 1
      (.dict [("class", .str "nosuchmod:SimpleCache")]) 0 =
      .error (.importError "nosuchmod") :=
  ⟨rfl, rfl, rfl, rfl⟩

/-- **C6** amended: when the `'class'` entry matches the import-path
grammar but its dotted module path cannot be resolved, the property
read fails by propagating the underlying `ImportError` itself,
unwrapped; it is not a value error (value errors are reserved for
grammar mismatch, non-callable symbols, and bad `'*'` fields). -/
theorem unresolvable_import_propagates_import_error
    (p : ConfigObjectProp) (ienv : ImportEnv) (environ : Environ)
    (fuel ctr : Nat) (inst : ConfigInstance)
    (m : List (String × Value)) (ws : List Warning)
    (cpath path name : String)
    (hc : p.cached = false)
    (hraw : getRawValue p.prop environ inst.conf = .ok ((false, .dict m), ws))
    (hclass : m.lookup "class" = some (.str cpath))
    (hmatch : classReMatch cpath = some (some path, name))
    (hmiss : ienv.lookup path = none)
    (hfuel : 0 < fuel) :
    objPropGet p ienv environ fuel inst ctr = .error (.importError path) ∧
    Err.isConfigValueError (.importError path) = false := by
  constructor
  · obtain ⟨fuel', rfl⟩ : ∃ f', fuel = f' + 1 := ⟨fuel - 1, by omega⟩
    simp [objPropGet, hc, hraw, bindOkEq, bindErrorEq, mapOkEq, isMapping,
      mappingGet, hclass, evaluateF, importCallable, hmatch, hmiss]
  · rfl

theorem unresolvable_import_propagates_import_error_witness :
    objPropGet { prop := { key := "cache" } } []
      [] 1 { conf := [("cache", .dict [("class", .str "nosuchmod:Foo")])] }
      0 = .error (.importError "nosuchmod") ∧
    Err.isConfigValueError (.importError "nosuchmod") = false := by
  exact unresolvable_import_propagates_import_error
    { prop := { key := "cache" } } [] [] 1 0
    { conf := [("cache", .dict [("class", .str "nosuchmod:Foo")])] }
    [("class", .str "nosuchmod:Foo")] [] "nosuchmod:Foo" "nosuchmod" "Foo"
    rfl rfl rfl rfl rfl (by omega)

/-! ### Allocation-counter lemmas for the evaluator -/

theorem evalArgsWith_mono (ev : Value → Nat → Except Err (Value × Nat))
    (hev : ∀ x c v c', ev x c = .ok (v, c') → c ≤ c') :
    ∀ (xs : List Value) (c : Nat) (ys : List Value) (c' : Nat),
      evalArgsWith ev xs c = .ok (ys, c') → c ≤ c' := by
  intro xs
  induction xs with
  | nil =>
    intro c ys c' h
    simp [evalArgsWith] at h
    omega
  | cons x rest ih =>
    intro c ys c' h
    simp only [evalArgsWith] at h
    cases h1 : ev x c with
    | error e => rw [h1] at h; exact absurd h (by simp [bindErrorEq])
    | ok p1 =>
      rw [h1] at h
      cases h2 : evalArgsWith ev rest p1.2 with
      | error e =>
        rw [bindOkEq] at h
        simp [h2, bindErrorEq] at h
      | ok p2 =>
        rw [bindOkEq] at h
        simp only [h2, bindOkEq] at h
        have := hev x c p1.1 p1.2 (by rw [h1])
        have := ih p1.2 p2.1 p2.2 (by rw [h2])
        cases h
        omega

theorem evalKwWith_mono (ev : Value → Nat → Except Err (Value × Nat))
    (hev : ∀ x c v c', ev x c = .ok (v, c') → c ≤ c') :
    ∀ (xs : List (String × Value)) (c : Nat)
      (ys : List (String × Value)) (c' : Nat),
      evalKwWith ev xs c = .ok (ys, c') → c ≤ c' := by
  intro xs
  induction xs with
  | nil =>
    intro c ys c' h
    simp [evalKwWith] at h
    omega
  | cons x rest ih =>
    intro c ys c' h
    simp only [evalKwWith] at h
    cases h1 : ev x.2 c with
    | error e => rw [h1] at h; exact absurd h (by simp [bindErrorEq])
    | ok p1 =>
      rw [h1] at h
      cases h2 : evalKwWith ev rest p1.2 with
      | error e =>
        rw [bindOkEq] at h
        simp [h2, bindErrorEq] at h
      | ok p2 =>
        rw [bindOkEq] at h
        simp only [h2, bindOkEq] at h
        have := hev x.2 c p1.1 p1.2 (by rw [h1])
        have := ih p1.2 p2.1 p2.2 (by rw [h2])
        cases h
        omega

/-- The threaded allocation counter never decreases. -/
theorem evaluateF_mono (recurse : Bool) (ienv : ImportEnv)
    (environ : Environ) (propKey : String) :
    ∀ (fuel : Nat) (e : Value) (c : Nat) (v : Value) (c' : Nat),
      evaluateF recurse ienv environ propKey fuel e c = .ok (v, c') →
      c ≤ c' := by
  intro fuel
  induction fuel with
  | zero =>
    intro e c v c' h
    simp [evaluateF] at h
  | succ fuel ih =>
    intro e c v c' h
    rw [evaluateF] at h
    split at h
    · cases h
      omega
    · split at h
      · exact Except.noConfusion h
      · cases h
        omega
      · split at h
        · exact Except.noConfusion h
        · split at h
          · exact Except.noConfusion h
          · split at h
            · exact Except.noConfusion h
            · split at h
              · exact Except.noConfusion h
              · split at h
                · split at h
                  · exact Except.noConfusion h
                  · rename_i hrec x5 args1 ctr1 hargs
                    dsimp only at h
                    split at h
                    · exact Except.noConfusion h
                    · rename_i x6 kw1 ctr2 hkw
                      cases h
                      have m1 := evalArgsWith_mono _
                        (fun x cx vx cx' hx => ih x cx vx cx' hx)
                        _ _ _ _ hargs
                      have m2 := evalKwWith_mono _
                        (fun x cx vx cx' hx => ih x cx vx cx' hx)
                        _ _ _ _ hkw
                      omega
                · cases h
                  omega
      · exact Except.noConfusion h

/-- A successful evaluation of a class-bearing dict yields a freshly
allocated object: its id is at least the starting counter and the
returned counter is one past the id. -/
theorem evaluateF_spec_obj (recurse : Bool) (ienv : ImportEnv)
    (environ : Environ) (propKey : String) (fuel : Nat)
    (m : List (String × Value)) (s : String) (c : Nat) (v : Value) (c' : Nat)
    (hclass : m.lookup "class" = some (.str s))
    (h : evaluateF recurse ienv environ propKey fuel (.dict m) c =
      .ok (v, c')) :
    ∃ i cls as ks, v = .obj i cls as ks ∧ c ≤ i ∧ c' = i + 1 := by
  cases fuel with
  | zero => simp [evaluateF] at h
  | succ fuel =>
    rw [evaluateF] at h
    simp only [isMapping, Bool.not_true, Bool.false_eq_true, if_false,
      mappingGet, hclass] at h
    split at h
    · exact Except.noConfusion h
    · split at h
      · exact Except.noConfusion h
      · split at h
        · exact Except.noConfusion h
        · split at h
          · split at h
            · exact Except.noConfusion h
            · rename_i hrec x5 args1 ctr1 hargs
              try dsimp only at h
              split at h
              · exact Except.noConfusion h
              · rename_i x6 kw1 ctr2 hkw
                cases h
                have m1 := evalArgsWith_mono _
                  (fun x cx vx cx' hx =>
                    evaluateF_mono recurse ienv environ propKey fuel
                      x cx vx cx' hx)
                  _ _ _ _ hargs
                have m2 := evalKwWith_mono _
                  (fun x cx vx cx' hx =>
                    evaluateF_mono recurse ienv environ propKey fuel
                      x cx vx cx' hx)
                  _ _ _ _ hkw
                exact ⟨ctr2, _, args1, kw1, rfl, by omega, rfl⟩
          · cases h
            rename_i ximp f himp xex argList hex xit items hit hrec
            exact ⟨c, f.name, argList,
              items.filter (fun kv => kv.1 ≠ "class" ∧ kv.1 ≠ "*"),
              rfl, Nat.le_refl c, rfl⟩

/-- **C4**: a construction spec — a dict whose `'class'` entry
resolves to a callable `f`, whose optional `'*'` entry is a non-string
sequence of positional arguments (empty when absent), and whose
remaining entries are keyword arguments — evaluates to the invocation
of `f` with exactly those arguments.  Without `recurse` every keyword
value (a nested mapping included) is passed through as raw data; with
`recurse` every argument that is not a class-bearing mapping passes
through unchanged, and the arguments are otherwise evaluated as
construction specs themselves before the invocation. -/
theorem object_property_construction
    (ienv : ImportEnv) (environ : Environ) (propKey : String)
    (m : List (String × Value)) (cpath : String) (f : PySymbol)
    (xs : List Value) (fuel ctr : Nat)
    (hclass : m.lookup "class" = some (.str cpath))
    (himp : importCallable ienv propKey cpath = .ok f)
    (hstar : m.lookup "*" = some (.list xs) ∨
      (m.lookup "*" = none ∧ xs = [])) :
    evaluateF false ienv environ propKey (fuel + 1) (.dict m) ctr =
      .ok (.obj ctr f.name xs
        (m.filter (fun kv => kv.1 ≠ "class" ∧ kv.1 ≠ "*")), ctr + 1) ∧
    (∀ (v : Value) (c : Nat), isMapping v = false →
      evaluateF true ienv environ propKey (fuel + 1) v c = .ok (v, c)) ∧
    (∀ (m2 : List (String × Value)) (c : Nat), m2.lookup "class" = none →
      evaluateF true ienv environ propKey (fuel + 1) (.dict m2) c =
        .ok (.dict m2, c)) ∧
    (∀ (xs' : List Value) (kw' : List (String × Value)) (c1 c2 : Nat),
      evalArgsWith (evaluateF true ienv environ propKey fuel) xs ctr =
        .ok (xs', c1) →
      evalKwWith (evaluateF true ienv environ propKey fuel)
        (m.filter (fun kv => kv.1 ≠ "class" ∧ kv.1 ≠ "*")) c1 =
        .ok (kw', c2) →
      evaluateF true ienv environ propKey (fuel + 1) (.dict m) ctr =
        .ok (.obj c2 f.name xs' kw', c2 + 1)) := by
  refine ⟨?_, ?_, ?_, ?_⟩
  · rw [evaluateF]
    rcases hstar with hs | ⟨hs, rfl⟩ <;>
      simp [isMapping, mappingGet, hclass, himp, hs, extractStarArgs,
        mappingItems]
  · intro v c hv
    rw [evaluateF]
    simp [hv]
  · intro m2 c hm2
    rw [evaluateF]
    simp [isMapping, mappingGet, hm2]
  · intro xs' kw' c1 c2 hargs hkw
    simp only [ne_eq, Bool.decide_and, decide_not] at hkw
    rcases hstar with hs | ⟨hs, hxs⟩
    · rw [evaluateF]
      simp [isMapping, mappingGet, hclass, himp, hs, extractStarArgs,
        mappingItems, hargs, hkw]
    · subst hxs
      rw [evaluateF]
      simp [isMapping, mappingGet, hclass, himp, hs, extractStarArgs,
        mappingItems, hargs, hkw]

/-- The import environment of the construction examples: a module
`mod` exporting a callable `Impl`. -/
def demoIenv : ImportEnv := [("mod", [("Impl", { name := "mod.Impl" })])]

/-- The construction spec
`{"class": "mod:Impl", "*": ["a","b","c"], "d": 4, "f": {nested spec}}`. -/
def demoSpec : List (String × Value) :=
  [("class", .str "mod:Impl"),
   ("*", .list [.str "a", .str "b", .str "c"]),
   ("d", .int 4),
   ("f", .dict [("class", .str "mod:Impl"), ("nested", .bool true)])]

theorem object_property_construction_witness :
    evaluateF false demoIenv [] "sample.a" 1 (.dict demoSpec) 0 =
      .ok (.obj 0 "mod.Impl" [.str "a", .str "b", .str "c"]
        [("d", .int 4),
         ("f", .dict [("class", .str "mod:Impl"), ("nested", .bool true)])],
        1) ∧
    evaluateF true demoIenv [] "sample.a" 3 (.dict demoSpec) 0 =
      .ok (.obj 1 "mod.Impl" [.str "a", .str "b", .str "c"]
        [("d", .int 4), ("f", .obj 0 "mod.Impl" [] [("nested", .bool true)])],
        2) := by
  constructor
  · exact (object_property_construction demoIenv [] "sample.a" demoSpec
      "mod:Impl" { name := "mod.Impl" } [.str "a", .str "b", .str "c"] 0 0
      rfl rfl (Or.inl rfl)).1
  · exact (object_property_construction demoIenv [] "sample.a" demoSpec
      "mod:Impl" { name := "mod.Impl" } [.str "a", .str "b", .str "c"] 2 0
      rfl rfl (Or.inl rfl)).2.2.2
      [.str "a", .str "b", .str "c"]
      [("d", .int 4), ("f", .obj 0 "mod.Impl" [] [("nested", .bool true)])]
      0 1 rfl rfl

/-- **C9**: with `cached=True`, the first read stores the constructed
object in the instance-private slot and a second read on the same
instance returns the very same object without re-invoking construction
(the allocation counter does not move); without caching, a second read
constructs a fresh, distinct object even for the identical spec; and
the cache is per-instance — a fresh `Configuration` instance over the
same document constructs its own object rather than reusing the first
instance's. -/
theorem object_property_caching
    (pr : ConfigProp) (rc : Bool) (ienv : ImportEnv) (environ : Environ)
    (fuel ctr ctr1 ctr2 : Nat) (inst : ConfigInstance)
    (m : List (String × Value)) (ws : List Warning)
    (cpath : String) (v0 v1 : Value)
    (hmiss : inst.cache.lookup (cacheAttr pr.key) = none)
    (hraw : getRawValue pr environ inst.conf = .ok ((false, .dict m), ws))
    (hclass : m.lookup "class" = some (.str cpath))
    (heval1 : evaluateF rc ienv environ pr.key fuel (.dict m) ctr =
      .ok (v0, ctr1))
    (htc1 : typecheckValue pr.key pr.cls v0 = .ok ())
    (heval2 : evaluateF rc ienv environ pr.key fuel (.dict m) ctr1 =
      .ok (v1, ctr2))
    (htc2 : typecheckValue pr.key pr.cls v1 = .ok ()) :
    (objPropGet { prop := pr, recurse := rc, cached := true } ienv environ
        fuel inst ctr =
      .ok (v0,
        { inst with
          cache := dictSet inst.cache (cacheAttr pr.key) v0 }, ctr1, ws)) ∧
    (objPropGet { prop := pr, recurse := rc, cached := true } ienv environ
        fuel
        { inst with cache := dictSet inst.cache (cacheAttr pr.key) v0 }
        ctr1 =
      .ok (v0,
        { inst with
          cache := dictSet inst.cache (cacheAttr pr.key) v0 }, ctr1, [])) ∧
    (objPropGet { prop := pr, recurse := rc, cached := false } ienv environ
        fuel inst ctr = .ok (v0, inst, ctr1, ws)) ∧
    (objPropGet { prop := pr, recurse := rc, cached := false } ienv environ
        fuel inst ctr1 = .ok (v1, inst, ctr2, ws)) ∧
    (objPropGet { prop := pr, recurse := rc, cached := true } ienv environ
        fuel { conf := inst.conf, cache := [] } ctr1 =
      .ok (v1,
        { conf := inst.conf,
          cache := dictSet [] (cacheAttr pr.key) v1 }, ctr2, ws)) ∧
    v0 ≠ v1 := by
  have hveq : ∀ (cA : Nat) (vA : Value) (cB : Nat),
      evaluateF rc ienv environ pr.key fuel (.dict m) cA = .ok (vA, cB) →
      ∃ i cls as ks, vA = .obj i cls as ks ∧ cA ≤ i ∧ cB = i + 1 :=
    fun cA vA cB hA =>
      evaluateF_spec_obj rc ienv environ pr.key fuel m cpath cA vA cB
        hclass hA
  obtain ⟨i0, cls0, as0, ks0, rfl, hle0, rfl⟩ := hveq ctr v0 ctr1 heval1
  obtain ⟨i1, cls1, as1, ks1, rfl, hle1, rfl⟩ := hveq (i0 + 1) v1 ctr2 heval2
  refine ⟨?_, ?_, ?_, ?_, ?_, ?_⟩
  · simp [objPropGet, hmiss, hraw, bindOkEq, mapOkEq, isMapping, mappingGet,
      hclass, heval1, htc1]
  · simp [objPropGet, dictSet_lookup_self]
  · simp [objPropGet, hmiss, hraw, bindOkEq, mapOkEq, isMapping, mappingGet,
      hclass, heval1, htc1]
  · simp [objPropGet, hmiss, hraw, bindOkEq, mapOkEq, isMapping, mappingGet,
      hclass, heval2, htc2]
  · simp [objPropGet, hraw, bindOkEq, mapOkEq, isMapping, mappingGet,
      hclass, heval2, htc2, List.lookup]
  · intro hcontra
    have : i0 = i1 := by
      injection hcontra
    omega

theorem object_property_caching_witness :
    (objPropGet
        { prop := { key := "sample.a", lookupEnv := false }
          recurse := false
          cached := true }
        demoIenv [] 1
        { conf := [("sample", .dict [("a", .dict demoSpec)])] } 0 =
      .ok (.obj 0 "mod.Impl" [.str "a", .str "b", .str "c"]
          [("d", .int 4),
           ("f", .dict [("class", .str "mod:Impl"),
             ("nested", .bool true)])],
        { conf := [("sample", .dict [("a", .dict demoSpec)])]
          cache := [("  cache_sample.a",
            .obj 0 "mod.Impl" [.str "a", .str "b", .str "c"]
              [("d", .int 4),
               ("f", .dict [("class", .str "mod:Impl"),
                 ("nested", .bool true)])])] }, 1, [])) ∧
    Value.obj 0 "mod.Impl" [.str "a", .str "b", .str "c"]
        [("d", .int 4),
         ("f", .dict [("class", .str "mod:Impl"), ("nested", .bool true)])] ≠
      Value.obj 1 "mod.Impl" [.str "a", .str "b", .str "c"]
        [("d", .int 4),
         ("f", .dict [("class", .str "mod:Impl"),
           ("nested", .bool true)])] := by
  have h := object_property_caching
    { key := "sample.a", lookupEnv := false } false demoIenv [] 1 0 1 2
    { conf := [("sample", .dict [("a", .dict demoSpec)])] }
    demoSpec [] "mod:Impl"
    (.obj 0 "mod.Impl" [.str "a", .str "b", .str "c"]
      [("d", .int 4),
       ("f", .dict [("class", .str "mod:Impl"), ("nested", .bool true)])])
    (.obj 1 "mod.Impl" [.str "a", .str "b", .str "c"]
      [("d", .int 4),
       ("f", .dict [("class", .str "mod:Impl"), ("nested", .bool true)])])
    rfl rfl rfl rfl rfl rfl rfl
  exact ⟨h.1, h.2.2.2.2.2⟩

/-! ### The document/environment merge (claim C1) -/

/-- **C1** counterexample: with document
`{"foo": {"overlay_env": {"bar": "3"}}}` and environment variables
`FOO__OVERLAY_ENV__FOO=1, FOO__OVERLAY_ENV__BAR=2`, the resolved value
of `foo.overlay_env` is `{"foo": "1", "bar": "3"}` — the *document*'s
`bar` survives the merge (exactly what
`test_config_property_overlay_env` asserts) — not the
environment-precedence merge `{"foo": "1", "bar": "2"}` the claim
describes. -/
theorem merge_env_precedence_counterexample :
    getRawValue { key := "foo.overlay_env" }
      [("FOO__OVERLAY_ENV__FOO", "1"), ("FOO__OVERLAY_ENV__BAR", "2")]
      [("foo", .dict [("overlay_env", .dict [("bar", .str "3")])])] =
      .ok ((false, .dict [("foo", .str "1"), ("bar", .str "3")]), []) ∧
    Value.dict [("foo", .str "1"), ("bar", .str "3")] ≠
      Value.dict [("foo", .str "1"), ("bar", .str "2")] := by
  refine ⟨rfl, ?_⟩
  simp

theorem lookup_eq_none_of_not_mem {β : Type} (l : List (String × β))
    (k : String) (h : k ∉ l.map Prod.fst) : l.lookup k = none := by
  induction l with
  | nil => rfl
  | cons hd rest ih =>
    simp only [List.map_cons, List.mem_cons, not_or] at h
    have hb : (k == hd.1) = false := beq_false_of_ne h.1
    simp [List.lookup, hb, ih h.2]

/-- The value `dict_merge` leaves at a key `k` present in the document
side (with value `dv`), as a function of the environment side's value
`c?` at `k`: a non-mapping (or absent) environment value is overwritten
by the document's; a truthy environment mapping is merged recursively;
an empty environment mapping is kept as is (the recursive call's result
is dropped by the `dct = dct or {}` rebinding); `none` models the
crash of the recursive call. -/
def mergeKeyVal (c? : Option Value) (dv : Value) : Option Value :=
  match c? with
  | some c =>
    match c with
    | .dict _ => (dictMerge c dv).map (fun r => if truthy c then r else c)
    | _ => some dv
  | none => some dv

/-- Per-key characterization of the `for` loop of `dict_merge`: with
duplicate-free document keys, the final mapping holds `mergeKeyVal` of
the two sides at every document key and the untouched accumulator
value everywhere else. -/
theorem mergeInto_lookup (doc : List (String × Value)) :
    (doc.map Prod.fst).Nodup →
    ∀ (acc M : List (String × Value)), mergeInto acc doc = some M →
      (∀ k dv, doc.lookup k = some dv →
        ∃ w, mergeKeyVal (acc.lookup k) dv = some w ∧
          M.lookup k = some w) ∧
      (∀ k, doc.lookup k = none → M.lookup k = acc.lookup k) := by
  induction doc with
  | nil =>
    intro _ acc M h
    simp only [mergeInto] at h
    cases h
    exact ⟨fun k dv hk => by simp [List.lookup] at hk, fun k _ => rfl⟩
  | cons hd rest ih =>
    intro hnd acc M h
    obtain ⟨k0, dv0⟩ := hd
    simp only [List.map_cons, List.nodup_cons] at hnd
    obtain ⟨hk0, hndr⟩ := hnd
    have hrest0 : rest.lookup k0 = none := lookup_eq_none_of_not_mem _ _ hk0
    simp only [mergeInto] at h
    have main : ∀ (acc' : List (String × Value)) (w : Value),
        mergeInto acc' rest = some M →
        acc'.lookup k0 = some w →
        (∀ k, k ≠ k0 → acc'.lookup k = acc.lookup k) →
        mergeKeyVal (acc.lookup k0) dv0 = some w →
        (∀ k dv, ((k0, dv0) :: rest).lookup k = some dv →
          ∃ w', mergeKeyVal (acc.lookup k) dv = some w' ∧
            M.lookup k = some w') ∧
        (∀ k, ((k0, dv0) :: rest).lookup k = none →
          M.lookup k = acc.lookup k) := by
      intro acc' w hM hself hother hmkv
      obtain ⟨P1, P2⟩ := ih hndr acc' M hM
      constructor
      · intro k dv hk
        by_cases hkk : k = k0
        · subst hkk
          simp [List.lookup] at hk
          subst hk
          exact ⟨w, hmkv, by rw [P2 k hrest0, hself]⟩
        · have hb : (k == k0) = false := beq_false_of_ne hkk
          simp only [List.lookup, hb] at hk
          obtain ⟨w', hw1, hw2⟩ := P1 k dv hk
          exact ⟨w', by rw [← hother k hkk]; exact hw1, hw2⟩
      · intro k hk
        by_cases hkk : k = k0
        · subst hkk
          simp [List.lookup] at hk
        · have hb : (k == k0) = false := beq_false_of_ne hkk
          simp only [List.lookup, hb] at hk
          rw [P2 k hk, hother k hkk]
    cases hc : acc.lookup k0 with
    | none =>
      rw [hc] at h
      exact main (dictSet acc k0 dv0) dv0 h
        (dictSet_lookup_self _ _ _)
        (fun k hkk => dictSet_lookup_other _ _ _ _ hkk)
        (by simp [mergeKeyVal, hc])
    | some c =>
      rw [hc] at h
      cases c with
      | dict cm =>
        dsimp only at h
        cases hdm : dictMerge (.dict cm) dv0 with
        | none => rw [hdm] at h; exact absurd h (by simp)
        | some r =>
          rw [hdm] at h
          exact main
            (dictSet acc k0 (if truthy (.dict cm) then r else .dict cm))
            (if truthy (.dict cm) then r else .dict cm) h
            (dictSet_lookup_self _ _ _)
            (fun k hkk => dictSet_lookup_other _ _ _ _ hkk)
            (by simp [mergeKeyVal, hc, hdm])
      | noneV =>
        exact main (dictSet acc k0 dv0) dv0 h (dictSet_lookup_self _ _ _)
          (fun k hkk => dictSet_lookup_other _ _ _ _ hkk)
          (by simp [mergeKeyVal, hc])
      | bool b =>
        exact main (dictSet acc k0 dv0) dv0 h (dictSet_lookup_self _ _ _)
          (fun k hkk => dictSet_lookup_other _ _ _ _ hkk)
          (by simp [mergeKeyVal, hc])
      | int n =>
        exact main (dictSet acc k0 dv0) dv0 h (dictSet_lookup_self _ _ _)
          (fun k hkk => dictSet_lookup_other _ _ _ _ hkk)
          (by simp [mergeKeyVal, hc])
      | str s =>
        exact main (dictSet acc k0 dv0) dv0 h (dictSet_lookup_self _ _ _)
          (fun k hkk => dictSet_lookup_other _ _ _ _ hkk)
          (by simp [mergeKeyVal, hc])
      | list xs =>
        exact main (dictSet acc k0 dv0) dv0 h (dictSet_lookup_self _ _ _)
          (fun k hkk => dictSet_lookup_other _ _ _ _ hkk)
          (by simp [mergeKeyVal, hc])
      | tuple xs =>
        exact main (dictSet acc k0 dv0) dv0 h (dictSet_lookup_self _ _ _)
          (fun k hkk => dictSet_lookup_other _ _ _ _ hkk)
          (by simp [mergeKeyVal, hc])
      | reader cf fr =>
        exact main (dictSet acc k0 dv0) dv0 h (dictSet_lookup_self _ _ _)
          (fun k hkk => dictSet_lookup_other _ _ _ _ hkk)
          (by simp [mergeKeyVal, hc])
      | enumMember a b cV =>
        exact main (dictSet acc k0 dv0) dv0 h (dictSet_lookup_self _ _ _)
          (fun k hkk => dictSet_lookup_other _ _ _ _ hkk)
          (by simp [mergeKeyVal, hc])
      | obj o a b cV =>
        exact main (dictSet acc k0 dv0) dv0 h (dictSet_lookup_self _ _ _)
          (fun k hkk => dictSet_lookup_other _ _ _ _ hkk)
          (by simp [mergeKeyVal, hc])

/-- **C1** amended: when both the document value and the
environment-derived value at the key are mappings, the resolved value
is their deep merge in which the *document* takes precedence on
overlapping keys — at a key present in both, a non-mapping environment
value is overwritten by the document's, a truthy environment mapping
is merged recursively by the same rule, and an empty environment
mapping is kept — while the environment supplies exactly its keys
absent from the document. -/
theorem merge_document_precedence
    (p : ConfigProp) (environ : Environ) (conf : List (String × Value))
    (env doc M : List (String × Value))
    (hdoc : valueFromDict environ p.key conf = .ok (true, .dict doc))
    (hl : p.lookupEnv = true)
    (henv : valueFromEnvP p environ = .ok (.dict env))
    (hnd : (doc.map Prod.fst).Nodup)
    (hM : dictMerge (.dict env) (.dict doc) = some (.dict M)) :
    getRawValue p environ conf = .ok ((false, .dict M), []) ∧
    (∀ k dv, doc.lookup k = some dv →
      ∃ w, mergeKeyVal (env.lookup k) dv = some w ∧
        M.lookup k = some w) ∧
    (∀ k, doc.lookup k = none → M.lookup k = env.lookup k) := by
  have hMI : mergeInto env doc = some M := by
    rw [dictMerge] at hM
    have hbase : (if truthy (Value.dict env) = true then Value.dict env
        else Value.dict []) = Value.dict env := by
      by_cases he : env.isEmpty
      · have henv0 : env = [] := by
          cases env with
          | nil => rfl
          | cons a l => simp [List.isEmpty] at he
        subst henv0
        simp [truthy]
      · simp [truthy, he]
    rw [hbase] at hM
    dsimp only at hM
    cases hmi : mergeInto env doc with
    | none =>
      rw [hmi] at hM
      exact absurd hM (by simp)
    | some r =>
      rw [hmi] at hM
      have h1 : Value.dict r = Value.dict M := by simpa using hM
      have h2 : r = M := by injection h1
      rw [h2]
  have hchar := mergeInto_lookup doc hnd env M hMI
  refine ⟨?_, hchar.1, hchar.2⟩
  simp [getRawValue, hdoc, bindOkEq, hl, henv, isNoneV, isDict, hM]

theorem merge_document_precedence_witness :
    getRawValue { key := "foo.overlay_env" }
      [("FOO__OVERLAY_ENV__FOO", "1"), ("FOO__OVERLAY_ENV__BAR", "2")]
      [("foo", .dict [("overlay_env", .dict [("bar", .str "3")])])] =
      .ok ((false, .dict [("foo", .str "1"), ("bar", .str "3")]), []) ∧
    (∃ w, mergeKeyVal (some (.str "2")) (.str "3") = some w ∧
      List.lookup "bar" [("foo", Value.str "1"), ("bar", Value.str "3")] =
        some w) ∧
    List.lookup "foo" [("foo", Value.str "1"), ("bar", Value.str "3")] =
      List.lookup "foo" [("foo", Value.str "1"), ("bar", Value.str "2")] := by
  have h := merge_document_precedence { key := "foo.overlay_env" }
    [("FOO__OVERLAY_ENV__FOO", "1"), ("FOO__OVERLAY_ENV__BAR", "2")]
    [("foo", .dict [("overlay_env", .dict [("bar", .str "3")])])]
    [("foo", .str "1"), ("bar", .str "2")] [("bar", .str "3")]
    [("foo", .str "1"), ("bar", .str "3")]
    rfl rfl rfl (by simp) rfl
  exact ⟨h.1, h.2.1 "bar" (.str "3") rfl, h.2.2 "foo" rfl⟩

/-! ### Sequence materialization from environment variables (claim C3) -/

/-- **C3** counterexample: the `EnvReader` mapping interface
(`_transform_asterisk_and_list`) does *not* place sequence elements at
their numeric indices with null padding: indices `0` and `4` yield the
two-element list `['x', 'y']` (length `2`, not `4 + 1`, and the
element supplied at index `4` does not sit at index `4`), and the
sort compares the raw index *strings*, so index `10` sorts before
index `2`. -/
theorem envreader_list_counterexample :
    readerGetitem
      [("A__SETTEIENVLIST__0", "x"), ("A__SETTEIENVLIST__4", "y")]
      [] none "a" = .ok (.list [.str "x", .str "y"]) ∧
    ([Value.str "x", Value.str "y"].length = 4 + 1 → False) ∧
    ([Value.str "x", Value.str "y"].get? 4 = some (.str "y") → False) ∧
    readerGetitem
      [("A__SETTEIENVLIST__2", "two"), ("A__SETTEIENVLIST__10", "ten")]
      [] none "a" = .ok (.list [.str "ten", .str "two"]) ∧
    ([Value.str "ten", Value.str "two"].get? 2 = some (.str "two") →
      False) := by
  refine ⟨rfl, by simp, by simp, rfl, by simp⟩

/-- The effect of one `z[k] = input_` sequence write of
`_transform_env_to_dict` at a *final* position: pad with `None` up to
index `k`, then fill slot `k` if it still holds the placeholder. -/
def insertIdx (xs : List Value) (k : Nat) (v : Value) : List Value :=
  let xs' := padTo xs (k + 1)
  let cur := xs'.getD k .noneV
  xs'.set k (if isNoneV cur then v else cur)

/-- The sequence materialized from index/value pairs in their
environment iteration order. -/
def buildList (ps : List (Nat × String)) : List Value :=
  ps.foldl (fun a pr => insertIdx a pr.1 (.str pr.2)) []

/-- The largest index among the pairs. -/
def maxIdx (ps : List (Nat × String)) : Nat :=
  ps.foldr (fun pr m => max pr.1 m) 0

theorem maxIdx_concat (ps : List (Nat × String)) (k : Nat) (v : String) :
    maxIdx (ps ++ [(k, v)]) = max (maxIdx ps) k := by
  induction ps with
  | nil => simp [maxIdx]
  | cons hd rest ih =>
    simp [maxIdx] at ih ⊢
    rw [ih]
    omega

theorem padTo_length (xs : List Value) (n : Nat) :
    (padTo xs n).length = max xs.length n := by
  unfold padTo
  by_cases h : xs.length < n
  · simp [h]
    omega
  · simp [h]
    omega

theorem padTo_get?_lt (xs : List Value) (n : Nat) (j : Nat)
    (h : j < xs.length) : (padTo xs n).get? j = xs.get? j := by
  unfold padTo
  by_cases hl : xs.length < n
  · simp only [if_pos hl]
    simp [List.get?_eq_getElem?, List.getElem?_append, h]
  · simp [hl]

theorem padTo_get?_pad (xs : List Value) (n : Nat) (j : Nat)
    (h1 : xs.length ≤ j) (h2 : j < n) :
    (padTo xs n).get? j = some .noneV := by
  unfold padTo
  have hl : xs.length < n := by omega
  simp only [if_pos hl]
  simp [List.get?_eq_getElem?, List.getElem?_append_right, h1,
    List.getElem?_replicate]
  omega

theorem insertIdx_length (xs : List Value) (k : Nat) (v : Value) :
    (insertIdx xs k v).length = max xs.length (k + 1) := by
  simp [insertIdx, padTo_length]

theorem insertIdx_get?_self (xs : List Value) (k : Nat) (v : Value)
    (h : xs.get? k = some Value.noneV ∨ xs.length ≤ k) :
    (insertIdx xs k v).get? k = some v := by
  rw [show insertIdx xs k v =
    (padTo xs (k + 1)).set k
      (if isNoneV ((padTo xs (k + 1)).getD k .noneV) then v
       else (padTo xs (k + 1)).getD k .noneV) from rfl]
  have hk : k < (padTo xs (k + 1)).length := by
    rw [padTo_length]
    omega
  have hcur : (padTo xs (k + 1)).get? k = some Value.noneV := by
    rcases h with h | h
    · rw [padTo_get?_lt]
      · exact h
      · cases hlt : decide (k < xs.length) with
        | true => exact of_decide_eq_true hlt
        | false =>
          have := of_decide_eq_false hlt
          rw [List.get?_eq_getElem?] at h
          rw [List.getElem?_eq_none (by omega)] at h
          exact absurd h (by simp)
    · exact padTo_get?_pad xs (k + 1) k h (by omega)
  have hgetD : (padTo xs (k + 1)).getD k Value.noneV = Value.noneV := by
    rw [List.getD_eq_getElem?_getD, ← List.get?_eq_getElem?, hcur]
    rfl
  rw [hgetD]
  simp [isNoneV, List.get?_eq_getElem?, List.getElem?_set_self, hk]

theorem insertIdx_get?_other (xs : List Value) (k : Nat) (v : Value)
    (j : Nat) (hj : j ≠ k) :
    (insertIdx xs k v).get? j =
      if j < xs.length then xs.get? j
      else if j < k + 1 then some Value.noneV
      else none := by
  rw [show insertIdx xs k v =
    (padTo xs (k + 1)).set k
      (if isNoneV ((padTo xs (k + 1)).getD k .noneV) then v
       else (padTo xs (k + 1)).getD k .noneV) from rfl]
  rw [List.get?_eq_getElem?, List.getElem?_set_ne (fun e => hj e.symm),
    ← List.get?_eq_getElem?]
  by_cases h1 : j < xs.length
  · rw [padTo_get?_lt _ _ _ h1, if_pos h1]
  · rw [if_neg h1]
    by_cases h2 : j < k + 1
    · rw [padTo_get?_pad _ _ _ (by omega) h2, if_pos h2]
    · rw [if_neg h2]
      rw [List.get?_eq_getElem?, List.getElem?_eq_none]
      rw [padTo_length]
      omega

theorem buildList_concat (ps : List (Nat × String)) (k : Nat) (v : String) :
    buildList (ps ++ [(k, v)]) = insertIdx (buildList ps) k (.str v) := by
  simp [buildList, List.foldl_append]

/-- Characterization of `buildList` for duplicate-free indices:
every supplied index holds its value, every other slot below the
length holds the `None` placeholder, and the length is one past the
largest supplied index — all independent of the pair order. -/
theorem buildList_spec (ps : List (Nat × String)) :
    (ps.map Prod.fst).Nodup →
    (ps = [] → buildList ps = []) ∧
    (ps ≠ [] → (buildList ps).length = maxIdx ps + 1) ∧
    (∀ pr ∈ ps, (buildList ps).get? pr.1 = some (.str pr.2)) ∧
    (∀ j, j < (buildList ps).length → (∀ pr ∈ ps, pr.1 ≠ j) →
      (buildList ps).get? j = some .noneV) := by
  induction ps using List.reverseRecOn with
  | nil =>
    intro _
    refine ⟨fun _ => rfl, fun h => absurd rfl h, ?_, ?_⟩ <;>
      simp [buildList]
  | append_singleton ps pr ih =>
    intro hnd
    obtain ⟨k, v⟩ := pr
    rw [List.map_append, List.nodup_append] at hnd
    have hk : k ∉ ps.map Prod.fst :=
      fun hm => hnd.2.2 hm (by simp)
    obtain ⟨e0, hlen, hvals, hgaps⟩ := ih hnd.1
    have hkk : ∀ pr ∈ ps, pr.1 ≠ k := by
      intro pr hpr he
      exact hk (he ▸ List.mem_map_of_mem Prod.fst hpr)
    refine ⟨fun h => absurd h (by simp), ?_, ?_, ?_⟩
    · intro _
      rw [buildList_concat, insertIdx_length, maxIdx_concat]
      by_cases hps : ps = []
      · subst hps
        rw [e0 rfl]
        simp [maxIdx]
      · rw [hlen hps]
        omega
    · intro pr hpr
      rw [buildList_concat]
      rcases List.mem_append.mp hpr with hin | hone
      · have hne : pr.1 ≠ k := hkk pr hin
        have hsome := hvals pr hin
        have hlt : pr.1 < (buildList ps).length := by
          rcases List.get?_eq_some.mp hsome with ⟨hl, _⟩
          exact hl
        rw [insertIdx_get?_other _ _ _ _ hne, if_pos hlt]
        exact hsome
      · have heq : pr = (k, v) := by simpa using hone
        rw [heq]
        apply insertIdx_get?_self
        by_cases hka : k < (buildList ps).length
        · exact Or.inl (hgaps k hka hkk)
        · exact Or.inr (by omega)
    · intro j hj hall
      rw [buildList_concat] at hj ⊢
      have hjk : j ≠ k := by
        intro he
        exact hall (k, v) (by simp) (by rw [he])
      have hallps : ∀ pr ∈ ps, pr.1 ≠ j :=
        fun pr hpr => hall pr (List.mem_append_left _ hpr)
      rw [insertIdx_get?_other _ _ _ _ (fun he => hjk he)]
      rw [insertIdx_length] at hj
      by_cases h1 : j < (buildList ps).length
      · rw [if_pos h1]
        exact hgaps j h1 hallps
      · rw [if_neg h1, if_pos (by omega)]



/-- One `_transform_env_to_dict` pass over a trailing
`SETTEIENVLIST.<index>` suffix of a split variable name: the marker
segment is skipped and the index segment performs the null-padded
indexed write into the sequence. -/
theorem insStep_list_tail (keys : List String) (val idxStr : String)
    (k : Nat) (j : Nat) (acc : List Value)
    (hdrop : keys.drop j = [LIST_CHAR, idxStr])
    (hnum : pyToNat? idxStr = some k) :
    insStep keys val (keys.drop j) j (.list acc) =
      some (.list (insertIdx acc k (.str val))) := by
  have hlen : keys.length = j + 2 := by
    have h2 : (keys.drop j).length = 2 := by rw [hdrop]; rfl
    rw [List.length_drop] at h2
    omega
  have hg0 : keys.get? j = some LIST_CHAR := by
    have h := List.get?_drop keys j 0
    rw [hdrop] at h
    simpa using h.symm
  have hg1 : keys.get? (j + 1) = some idxStr := by
    have h := List.get?_drop keys j 1
    rw [hdrop] at h
    simpa using h.symm
  have hne : idxStr ≠ LIST_CHAR := by
    intro he
    rw [he, show pyToNat? LIST_CHAR = none from rfl] at hnum
    exact Option.noConfusion hnum
  have hg0e : keys[j]? = some LIST_CHAR := by
    rw [← List.get?_eq_getElem?]; exact hg0
  have hg1e : keys[j + 1]? = some idxStr := by
    rw [← List.get?_eq_getElem?]; exact hg1
  rw [hdrop]
  simp only [insStep, hg0, hg1, hnum, hlen, insertIdx]
  simp [hne, hg0e, hg1e]

/-- Nested single-key dictionaries along a list of (lower-cased)
segments, the shape `_transform_env_to_dict`'s `setdefault` chain
creates for one dotted key path. -/
def nestDicts : List String → Value → Value
  | [], v => v
  | s :: rest, v => .dict [(pyLower s, nestDicts rest v)]

/-- Descending an existing `setdefault` chain: a pass whose remaining
segments are non-marker path segments followed by the
`SETTEIENVLIST.<index>` suffix rebuilds the same chain with the
indexed write applied to the sequence at the bottom. -/
theorem insStep_descend (keys : List String) (val idxStr : String)
    (k : Nat) (hnum : pyToNat? idxStr = some k) :
    ∀ (u : List String) (j : Nat) (acc : List Value),
    keys.drop j = u ++ [LIST_CHAR, idxStr] →
    (∀ s ∈ u, s ≠ LIST_CHAR ∧ s ≠ ASTERISK_CHAR) →
    (j = 0 ∨ ∃ s, keys.get? (j - 1) = some s ∧
      s ≠ LIST_CHAR ∧ s ≠ ASTERISK_CHAR) →
    insStep keys val (keys.drop j) j (nestDicts u (.list acc)) =
      some (nestDicts u (.list (insertIdx acc k (.str val))))
  | [], j, acc, hdrop, _, _ => by
    simpa [nestDicts] using
      insStep_list_tail keys val idxStr k j acc (by simpa using hdrop) hnum
  | u0 :: u', j, acc, hdrop, hu, hprev => by
    have hg0 : keys.get? j = some u0 := by
      have h := List.get?_drop keys j 0
      rw [hdrop] at h
      simpa using h.symm
    have hg0e : keys[j]? = some u0 := by
      rw [← List.get?_eq_getElem?]; exact hg0
    have hlen : keys.length = j + (u'.length + 3) := by
      have h2 : (keys.drop j).length = u'.length + 3 := by
        rw [hdrop]; simp
      rw [List.length_drop] at h2
      omega
    have hdrop' : keys.drop (j + 1) = u' ++ [LIST_CHAR, idxStr] := by
      have h : keys.drop (j + 1) = (keys.drop j).drop 1 := by
        rw [List.drop_drop, Nat.add_comm]
      rw [h, hdrop]
      simp
    obtain ⟨hu0l, hu0a⟩ := hu u0 (by simp)
    have ih := insStep_descend keys val idxStr k hnum u' (j + 1) acc hdrop'
      (fun s hs => hu s (by simp [hs]))
      (Or.inr ⟨u0, by simpa using hg0, hu0l, hu0a⟩)
    rw [hdrop'] at ih
    have hprevne : ¬(0 < j ∧ (keys[j - 1]? = some ASTERISK_CHAR ∨
        keys[j - 1]? = some LIST_CHAR)) := by
      rcases hprev with h0 | ⟨s, hs, hsl, hsa⟩
      · subst h0; simp
      · have hse : keys[j - 1]? = some s := by
          rw [← List.get?_eq_getElem?]; exact hs
        rintro ⟨-, h | h⟩
        · rw [hse] at h
          exact hsa (by simpa using h)
        · rw [hse] at h
          exact hsl (by simpa using h)
    have hjne : j ≠ keys.length - 1 := by omega
    rw [hdrop]
    simp only [insStep, hg0, hnum]
    simp [hu0l, hu0a, hprevne, ih, dictSet, nestDicts, hg0e, hjne]

/-- First pass for a dotted key path: starting from an empty dict the
`setdefault` chain is created segment by segment, ending in a fresh
sequence holding the single indexed write. -/
theorem insStep_create (keys : List String) (val idxStr : String)
    (k : Nat) (hnum : pyToNat? idxStr = some k) :
    ∀ (u : List String) (j : Nat),
    u ≠ [] →
    keys.drop j = u ++ [LIST_CHAR, idxStr] →
    (∀ s ∈ u, s ≠ LIST_CHAR ∧ s ≠ ASTERISK_CHAR) →
    (j = 0 ∨ ∃ s, keys.get? (j - 1) = some s ∧
      s ≠ LIST_CHAR ∧ s ≠ ASTERISK_CHAR) →
    insStep keys val (keys.drop j) j (.dict []) =
      some (nestDicts u (.list (insertIdx [] k (.str val))))
  | [], _, hne, _, _, _ => absurd rfl hne
  | [u0], j, _, hdrop, hu, hprev => by
    have hg0 : keys.get? j = some u0 := by
      have h := List.get?_drop keys j 0
      rw [hdrop] at h
      simpa using h.symm
    have hg0e : keys[j]? = some u0 := by
      rw [← List.get?_eq_getElem?]; exact hg0
    have hg1 : keys.get? (j + 1) = some LIST_CHAR := by
      have h := List.get?_drop keys j 1
      rw [hdrop] at h
      simpa using h.symm
    have hg1e : keys[j + 1]? = some LIST_CHAR := by
      rw [← List.get?_eq_getElem?]; exact hg1
    have hlen : keys.length = j + 3 := by
      have h2 : (keys.drop j).length = 3 := by rw [hdrop]; rfl
      rw [List.length_drop] at h2
      omega
    have hne2 : idxStr ≠ LIST_CHAR := by
      intro he
      rw [he, show pyToNat? LIST_CHAR = none from rfl] at hnum
      exact Option.noConfusion hnum
    have hg2 : keys.get? (j + 1 + 1) = some idxStr := by
      have h := List.get?_drop keys j 2
      rw [hdrop] at h
      simpa using h.symm
    have hg2e : keys[j + 1 + 1]? = some idxStr := by
      rw [← List.get?_eq_getElem?]; exact hg2
    have hcond := eq_true (show j + 1 + 1 = keys.length - 1 by omega)
    obtain ⟨hu0l, hu0a⟩ := hu u0 (by simp)
    have hprevne : ¬(0 < j ∧ (keys[j - 1]? = some ASTERISK_CHAR ∨
        keys[j - 1]? = some LIST_CHAR)) := by
      rcases hprev with h0 | ⟨s, hs, hsl, hsa⟩
      · subst h0; simp
      · have hse : keys[j - 1]? = some s := by
          rw [← List.get?_eq_getElem?]; exact hs
        rintro ⟨-, h | h⟩
        · rw [hse] at h
          exact hsa (by simpa using h)
        · rw [hse] at h
          exact hsl (by simpa using h)
    have hjne : j ≠ keys.length - 1 := by omega
    rw [hdrop]
    simp only [insStep, hg0, hnum]
    simp [hu0l, hu0a, hprevne, dictSet, nestDicts, hg0e, hg1e, hg2e, hjne,
      hcond, hne2, insertIdx, hnum]
  | u0 :: u1 :: u'', j, _, hdrop, hu, hprev => by
    have hg0 : keys.get? j = some u0 := by
      have h := List.get?_drop keys j 0
      rw [hdrop] at h
      simpa using h.symm
    have hg0e : keys[j]? = some u0 := by
      rw [← List.get?_eq_getElem?]; exact hg0
    have hg1 : keys.get? (j + 1) = some u1 := by
      have h := List.get?_drop keys j 1
      rw [hdrop] at h
      simpa using h.symm
    have hg1e : keys[j + 1]? = some u1 := by
      rw [← List.get?_eq_getElem?]; exact hg1
    have hlen : keys.length = j + (u''.length + 4) := by
      have h2 : (keys.drop j).length = u''.length + 4 := by
        rw [hdrop]; simp
      rw [List.length_drop] at h2
      omega
    have hdrop' : keys.drop (j + 1) = (u1 :: u'') ++ [LIST_CHAR, idxStr] := by
      have h : keys.drop (j + 1) = (keys.drop j).drop 1 := by
        rw [List.drop_drop, Nat.add_comm]
      rw [h, hdrop]
      simp
    obtain ⟨hu0l, hu0a⟩ := hu u0 (by simp)
    obtain ⟨hu1l, hu1a⟩ := hu u1 (by simp)
    have ih := insStep_create keys val idxStr k hnum (u1 :: u'') (j + 1)
      (by simp) hdrop' (fun s hs => hu s (by simp [List.mem_cons] at hs ⊢; tauto))
      (Or.inr ⟨u0, by simpa using hg0, hu0l, hu0a⟩)
    rw [hdrop'] at ih
    simp only [insStep] at ih
    simp [hu1l, hu1a, hg1e, dictSet, nestDicts] at ih
    have hprevne : ¬(0 < j ∧ (keys[j - 1]? = some ASTERISK_CHAR ∨
        keys[j - 1]? = some LIST_CHAR)) := by
      rcases hprev with h0 | ⟨s, hs, hsl, hsa⟩
      · subst h0; simp
      · have hse : keys[j - 1]? = some s := by
          rw [← List.get?_eq_getElem?]; exact hs
        rintro ⟨-, h | h⟩
        · rw [hse] at h
          exact hsa (by simpa using h)
        · rw [hse] at h
          exact hsl (by simpa using h)
    have hjne : j ≠ keys.length - 1 := by omega
    rw [hdrop]
    simp only [insStep, hg0, hnum]
    simp [hu0l, hu0a, hu1l, hu1a, hprevne, ih, dictSet, nestDicts, hg0e,
      hg1e, hjne]

/-- The descent `r = r[k]` of `_value_from_env` walks back down the
chain of single-key dicts produced by the transformer. -/
theorem descend_nestDicts (u : List String) (v : Value) :
    descend (nestDicts u v) (u.map pyLower) = .ok v := by
  induction u with
  | nil => rfl
  | cons s rest ih => simp [nestDicts, descend, List.lookup, ih]

/-- The largest supplied index does not depend on iteration order. -/
theorem maxIdx_perm (ps ps' : List (Nat × String)) (h : ps.Perm ps') :
    maxIdx ps = maxIdx ps' := by
  induction h with
  | nil => rfl
  | cons x _ ih =>
    simp only [maxIdx, List.foldr_cons] at ih ⊢
    rw [ih]
  | swap x y l =>
    simp only [maxIdx, List.foldr_cons]
    omega
  | trans _ _ ih1 ih2 => exact ih1.trans ih2

/-- With duplicate-free indices the materialized sequence does not
depend on the iteration order of the index/value pairs. -/
theorem buildList_perm (ps ps' : List (Nat × String))
    (hnd : (ps.map Prod.fst).Nodup) (h : ps.Perm ps') :
    buildList ps = buildList ps' := by
  have hnd' : (ps'.map Prod.fst).Nodup := ((h.map Prod.fst).nodup_iff).mp hnd
  obtain ⟨e0, hlen, hvals, hgaps⟩ := buildList_spec ps hnd
  obtain ⟨e0', hlen', hvals', hgaps'⟩ := buildList_spec ps' hnd'
  by_cases hps : ps = []
  · subst hps
    have h2 : ps' = [] := by
      have hl := h.length_eq
      simp at hl
      exact List.length_eq_zero.mp hl.symm
    subst h2
    rfl
  · have hps' : ps' ≠ [] := by
      intro he
      apply hps
      subst he
      have hl := h.length_eq
      simp at hl
      exact hl
    have hlena : (buildList ps).length = (buildList ps').length := by
      rw [hlen hps, hlen' hps', maxIdx_perm ps ps' h]
    apply List.ext_get?
    intro j
    by_cases hj : j < (buildList ps).length
    · by_cases hex : ∃ pr ∈ ps, pr.1 = j
      · obtain ⟨pr, hpr, hje⟩ := hex
        subst hje
        rw [hvals pr hpr, hvals' pr (h.mem_iff.mp hpr)]
      · push_neg at hex
        rw [hgaps j hj hex, hgaps' j (by omega) (fun pr hpr =>
          hex pr (h.mem_iff.mpr hpr))]
    · rw [List.get?_eq_getElem?, List.get?_eq_getElem?,
        List.getElem?_eq_none (by omega),
        List.getElem?_eq_none (by omega)]

/-- Folding matching environment variables (in any iteration order)
over an existing chain applies each indexed write in turn. -/
theorem transformEnvToDict_fold (segsU : List String) (nameOf : Nat → String)
    (hu : ∀ s ∈ segsU, s ≠ LIST_CHAR ∧ s ≠ ASTERISK_CHAR) :
    ∀ (ps : List (Nat × String)) (acc : List Value),
    (∀ pr ∈ ps, pySplit (nameOf pr.1) DELIMITER =
        segsU ++ [LIST_CHAR, toString pr.1] ∧
      pyToNat? (toString pr.1) = some pr.1) →
    List.foldlM (fun rs kv =>
        let keys := pySplit kv.1 DELIMITER
        insStep keys kv.2 keys 0 rs)
      (nestDicts segsU (.list acc))
      (ps.map (fun pr => (nameOf pr.1, pr.2))) =
      some (nestDicts segsU (.list (ps.foldl
        (fun a pr => insertIdx a pr.1 (.str pr.2)) acc)))
  | [], acc, _ => rfl
  | p :: ps, acc, hps => by
    obtain ⟨hsplit, hnum⟩ := hps p (by simp)
    have hstep := insStep_descend (pySplit (nameOf p.1) DELIMITER) p.2
      (toString p.1) p.1 hnum segsU 0 acc (by rw [List.drop_zero]; exact hsplit)
      hu (Or.inl rfl)
    rw [List.drop_zero] at hstep
    have ih := transformEnvToDict_fold segsU nameOf hu ps
      (insertIdx acc p.1 (.str p.2)) (fun pr hpr => hps pr (by simp [hpr]))
    simp only [List.map_cons, List.foldlM_cons, List.foldl_cons]
    rw [hstep]
    simpa using ih

/-- **C3** (amended): the numeric-index sequence materialization holds
on the `config_property` environment path (`_transform_env_to_dict`),
not on the `EnvReader` mapping interface.  For any dotted key path and
any duplicate-free set of numeric indices supplied in an arbitrary
iteration order (`ps'` is any permutation of `ps`), `_value_from_env`
materializes the sequence with every element at its numeric index,
`None` placeholders at every unassigned lower index, and length equal
to the maximum index plus one. -/
theorem transform_env_list_materialization
    (p : ConfigProp) (segsU : List String) (nameOf : Nat → String)
    (ps ps' : List (Nat × String)) (environ : Environ)
    (hpe : p.parseEnv = none)
    (hps : ps ≠ [])
    (hnd : (ps.map Prod.fst).Nodup)
    (hperm : ps.Perm ps')
    (hne : segsU ≠ [])
    (hu : ∀ s ∈ segsU, s ≠ LIST_CHAR ∧ s ≠ ASTERISK_CHAR)
    (hlow : pySplit p.key "." = segsU.map pyLower)
    (hsp : ∀ pr ∈ ps', pySplit (nameOf pr.1) DELIMITER =
        segsU ++ [LIST_CHAR, toString pr.1] ∧
      pyToNat? (toString pr.1) = some pr.1)
    (henv : environ = ps'.map (fun pr => (nameOf pr.1, pr.2)))
    (hfilter : environ.filter (fun kv =>
        pyStartsWith kv.1 (makeEnvName p.key ++ DELIMITER) ||
        kv.1 = makeEnvName p.key) = environ) :
    valueFromEnvP p environ = .ok (.list (buildList ps)) ∧
    (buildList ps).length = maxIdx ps + 1 ∧
    (∀ pr ∈ ps, (buildList ps).get? pr.1 = some (.str pr.2)) ∧
    (∀ j, j < (buildList ps).length → (∀ pr ∈ ps, pr.1 ≠ j) →
      (buildList ps).get? j = some .noneV) := by
  obtain ⟨e0, hlen, hvals, hgaps⟩ := buildList_spec ps hnd
  have hps' : ps' ≠ [] := by
    intro he
    apply hps
    have hl := hperm.length_eq
    rw [he] at hl
    simp at hl
    exact hl
  obtain ⟨q, qs, hq⟩ := List.exists_cons_of_ne_nil hps'
  obtain ⟨hq1, hq2⟩ := hsp q (by rw [hq]; simp)
  have hcreate := insStep_create (pySplit (nameOf q.1) DELIMITER) q.2
    (toString q.1) q.1 hq2 segsU 0 hne (by rw [List.drop_zero]; exact hq1)
    hu (Or.inl rfl)
  rw [List.drop_zero] at hcreate
  have hfold := transformEnvToDict_fold segsU nameOf hu qs
    (insertIdx [] q.1 (.str q.2))
    (fun pr hpr => hsp pr (by rw [hq]; simp [hpr]))
  have htr : transformEnvToDict environ =
      some (nestDicts segsU (.list (buildList ps'))) := by
    rw [henv, hq]
    simp only [List.map_cons, transformEnvToDict, List.foldlM_cons]
    rw [hcreate]
    simpa [buildList] using hfold
  have hbl : buildList ps' = buildList ps :=
    (buildList_perm ps ps' hnd hperm).symm
  rw [hbl] at htr
  have hdesc : descend (nestDicts segsU (.list (buildList ps)))
      (pySplit p.key ".") = .ok (.list (buildList ps)) := by
    rw [hlow]
    exact descend_nestDicts segsU _
  have hnem : environ.isEmpty = false := by
    rw [henv, hq]
    rfl
  refine ⟨?_, hlen hps, hvals, hgaps⟩
  simp [valueFromEnvP, hfilter, hnem, htr, hdesc, hpe, bindOkEq]

theorem transform_env_list_materialization_witness :
    valueFromEnvP { key := "a.b" }
      [("A__B__SETTEIENVLIST__4", "e"), ("A__B__SETTEIENVLIST__1", "b")] =
      .ok (.list [.noneV, .str "b", .noneV, .noneV, .str "e"]) ∧
    [Value.noneV, .str "b", .noneV, .noneV, .str "e"].length = 4 + 1 := by
  have h := transform_env_list_materialization { key := "a.b" } ["A", "B"]
    (fun k => "A__B__SETTEIENVLIST__" ++ toString k)
    [(1, "b"), (4, "e")] [(4, "e"), (1, "b")]
    [("A__B__SETTEIENVLIST__4", "e"), ("A__B__SETTEIENVLIST__1", "b")]
    rfl (by simp) (by simp) (List.Perm.swap (4, "e") (1, "b") [])
    (by simp) (by decide) rfl (by decide) rfl rfl
  have hbl : buildList [(1, "b"), (4, "e")] =
      [Value.noneV, .str "b", .noneV, .noneV, .str "e"] := rfl
  rw [hbl] at h
  exact ⟨h.1, by exact h.2.1⟩

end Settei
